import Mathlib

/-!
# Verification of the `GaussianCopula` wrapper (`sdv/tabular/copulas.py`)

A shallow embedding of the `GaussianCopula` model-wrapper class and of the
helpers it uses.  Python floats are modelled as real numbers, Python dicts as
association lists (key order = insertion order, first occurrence wins on
lookup, as in CPython), exceptions as an explicit error type.

Code that lives outside `src/` (the `sdv.tabular.utils` helpers
`flatten_dict` / `unflatten_dict` / `square_matrix` /
`check_matrix_symmetric_positive_definite` / `make_positive_definite`, and the
`copulas` library) is modelled from the natural-language spec; every such
definition carries a doc comment starting with `Modelled from the spec:`.
-/

namespace SDV

/-- `copulas.univariate.ParametricType` (the two-valued enum used by the
`copulas` library; modelled from the spec's parametric / non-parametric
family classification). -/
inductive ParametricType where
  | parametric
  | nonParametric
deriving DecidableEq

/-- Modelled from the spec: `copulas.univariate.BoundedType`, the spec's
bounded / semi-bounded / unbounded family classification. -/
inductive BoundedType where
  | unbounded
  | semiBounded
  | bounded
deriving DecidableEq

/-- Modelled from the spec: the `copulas.univariate` objects that appear as
values of the `_DISTRIBUTIONS` registry in the source — the `Univariate`
class itself, pre-instantiated `Univariate(...)` selector instances
(characterised by their optional parametric / bounded constraints) and the
six concrete families. -/
inductive DistObj where
  | univariateClass
  | selector (parametric : Option ParametricType) (bounded : Option BoundedType)
  | gaussian
  | gamma
  | beta
  | studentT
  | gaussianKDE
  | truncatedGaussian
deriving DecidableEq

/-- A distribution specification as accepted / returned by
`GaussianCopula._validate_distribution`: either a string or an
already-instantiated `copulas` object. -/
inductive DistSpec where
  | str (s : String)
  | inst (d : DistObj)
deriving DecidableEq

/-- Values stored in the (heterogeneous) Python dicts that this module
manipulates: floats (as reals), the float `nan`, strings, and distribution
objects (which appear as the value of a univariate's `type` key after
`_rebuild_gaussian_copula` assigns `univariate['type'] =
self._field_distributions[column]`). -/
inductive UnivVal where
  | num (x : ℝ)
  | nan
  | str (s : String)
  | dist (d : DistSpec)

/-- A Python dict holding one univariate's parameters (`loc`, `scale`,
`type`, ...), as an association list. -/
abbrev UnivDict : Type := List (String × UnivVal)

/-- First-match lookup in an association list (Python dict read `d[k]` /
`k in d`). -/
def lookupKey {α : Type} (k : String) : List (String × α) → Option α
  | [] => none
  | kv :: rest => if kv.1 = k then some kv.2 else lookupKey k rest

/-- Python dict assignment `d[k] = v`: replace the value at an existing key,
otherwise append the new binding at the end (CPython insertion order). -/
def setKey {α : Type} (k : String) (v : α) (d : List (String × α)) : List (String × α) :=
  if d.any (fun kv => kv.1 = k) then
    d.map (fun kv => if kv.1 = k then (k, v) else kv)
  else
    d ++ [(k, v)]

/-- Drop every binding of key `k` (used to model reading a dict minus one of
its keys). -/
def removeKey {α : Type} (k : String) (d : List (String × α)) : List (String × α) :=
  d.filter (fun kv => kv.1 ≠ k)

/-- Effectful map over a list in the `Except` monad (the dict / list
comprehensions and loops of the source, where the first exception
propagates). -/
def exceptMapM {ε α β : Type} (f : α → Except ε β) : List α → Except ε (List β)
  | [] => .ok []
  | a :: rest => do
    let b ← f a
    let bs ← exceptMapM f rest
    pure (b :: bs)

/-- The possible Python exceptions of the embedded code. The spec's
`InvalidDistributionSpecError` is the source's
`ValueError('Invalid distribution specification {spec}')`; the spec's
`NonParametricError` / `NotFittedError` keep their names. -/
inductive Err where
  | invalidDistributionSpec (s : String)
  | nonParametric
  | notFitted
  | keyError (k : String)
  | typeError (what : String)
  | valueError (what : String)
deriving DecidableEq

/-- The `GaussianCopula._DISTRIBUTIONS` registry (source lines 116-138),
mapping alias strings to `copulas.univariate` classes / selector
instances. -/
def _DISTRIBUTIONS : List (String × DistObj) :=
  [("univariate", .univariateClass),
   ("parametric", .selector (some .parametric) none),
   ("bounded", .selector none (some .bounded)),
   ("semi_bounded", .selector none (some .semiBounded)),
   ("parametric_bounded", .selector (some .parametric) (some .bounded)),
   ("parametric_semi_bounded", .selector (some .parametric) (some .semiBounded)),
   ("gaussian", .gaussian),
   ("gamma", .gamma),
   ("beta", .beta),
   ("student_t", .studentT),
   ("gaussian_kde", .gaussianKDE),
   ("truncated_gaussian", .truncatedGaussian)]

/-- `_DEFAULT_DISTRIBUTION = _DISTRIBUTIONS['parametric']` (source line
139). -/
def _DEFAULT_DISTRIBUTION : DistSpec := .inst (.selector (some .parametric) none)

/-- `GaussianCopula._validate_distribution` (source lines 170-182).  The
missing `copulas.get_instance` resolver is passed in as the predicate
`resolvable : String → Bool` (modelled from the spec: resolution of a
fully-qualified family identifier, whose result the source discards — it
returns the string itself on success). -/
def _validate_distribution (resolvable : String → Bool) :
    DistSpec → Except Err DistSpec
  | .inst d => .ok (.inst d)
  | .str s =>
    match lookupKey s _DISTRIBUTIONS with
    | some obj => .ok (.inst obj)
    | none =>
      if resolvable s then .ok (.str s)
      else .error (.invalidDistributionSpec s)

/-- Modelled from the spec: one fitted univariate inside a fitted
`copulas.multivariate.GaussianMultivariate`.  `fam` is the distribution tag
of the (resolved) instance: for a selector-wrapped univariate
(`type(univariate) is Univariate` in `get_parameters`) it records the
resolved `_instance`'s family, so the unwrap step of the source collapses
structurally.  `params` holds the numeric parameters of `to_dict()`
(without the `type` key, which is kept separately in `fam`). -/
structure UnivObj where
  fam : DistSpec
  params : UnivDict

/-- Modelled from the spec: the `copulas.multivariate.GaussianMultivariate`
state this wrapper reads — column names, per-column fitted univariates and
the copula covariance matrix (a list of rows, as `to_dict()` returns it). -/
structure GaussMult where
  columns : List String
  univariates : List UnivObj
  covariance : List (List ℝ)

/-- The mutable per-instance state of a `GaussianCopula`:
`_field_distributions`, `_default_distribution`,
`_categorical_transformer`, `_num_rows` and the fitted `_model`.
(The metadata / transformer plumbing inherited from `BaseTabularModel`
is outside the claims and not modelled.) -/
structure GCState where
  field_distributions : List (String × DistSpec)
  default_distribution : DistSpec
  categorical_transformer : String
  num_rows : ℕ
  model : Option GaussMult

/-- `GaussianCopula.__init__` (source lines 184-232), restricted to the three
distribution-related arguments the claims are about (the metadata arguments
and the `table_metadata` kwargs side-channel are external collaborators).
Every entry of `field_distributions` and the `default_distribution` are
validated eagerly; the first invalid spec aborts construction. -/
def GaussianCopula_init (resolvable : String → Bool)
    (field_distributions : Option (List (String × DistSpec)))
    (default_distribution : Option DistSpec)
    (categorical_transformer : Option String) : Except Err GCState := do
  let fd ← exceptMapM
    (fun cs => do
      let v ← _validate_distribution resolvable cs.2
      pure (cs.1, v))
    (field_distributions.getD [])
  let dd ← match default_distribution with
    | none => pure _DEFAULT_DISTRIBUTION
    | some d => _validate_distribution resolvable d
  pure { field_distributions := fd
         default_distribution := dd
         categorical_transformer := categorical_transformer.getD "one_hot_encoding"
         num_rows := 0
         model := none }

/-- Read entry `(i, j)` of a list-of-rows matrix, defaulting to `0` out of
range (accesses in this development always stay in range). -/
def matGet (M : List (List ℝ)) (i j : ℕ) : ℝ :=
  (M.getD i []).getD j 0

/-- Modelled from the spec: `square_matrix` (`sdv.tabular.utils`, not under
`src/`) — given a lower-triangular representation, pad each row with zeros
to the full width (the number of rows) to form a square matrix. -/
def square_matrix (tri : List (List ℝ)) : List (List ℝ) :=
  tri.map (fun row => row ++ List.replicate (tri.length - row.length) 0)

/-- The symmetrization step of `_rebuild_covariance_matrix` (source line
368): `covariance + covariance.T - identity * covariance`, written
entrywise over the list-of-rows representation. -/
def symmetrizeMatrix (S : List (List ℝ)) : List (List ℝ) :=
  (List.range S.length).map (fun i =>
    (List.range S.length).map (fun j =>
      matGet S i j + matGet S j i - if i = j then matGet S i j else 0))

/-- The lower-triangular compression performed by `get_parameters` (source
lines 328-332): row `i` keeps entries `0..i` inclusive. -/
def triRows (cov : List (List ℝ)) : List (List ℝ) :=
  cov.enum.map (fun ir => ir.2.take (ir.1 + 1))

/-- View a list-of-rows matrix as an `n × n` `Matrix` (for stating symmetry
and positive semi-definiteness). -/
def toMatrix (n : ℕ) (M : List (List ℝ)) : Matrix (Fin n) (Fin n) ℝ :=
  Matrix.of (fun i j => matGet M i j)

/-- A nonempty list-of-rows matrix whose rows all have length equal to the
number of rows (the shape test of the positive-definiteness check). -/
def isSquareL (M : List (List ℝ)) : Prop :=
  M ≠ [] ∧ ∀ r ∈ M, r.length = M.length

/-- Modelled from the spec: `check_matrix_symmetric_positive_definite`
(`sdv.tabular.utils`, not under `src/`) — true iff the matrix is 2-D and
square, equal to its transpose, and all eigenvalues are strictly positive;
for a real symmetric matrix the latter two are exactly
`Matrix.PosDef`. -/
def check_matrix_symmetric_positive_definite (M : List (List ℝ)) : Prop :=
  isSquareL M ∧ (toMatrix M.length M).PosDef

/-- Modelled from the spec: `make_positive_definite` (`sdv.tabular.utils`,
not under `src/`).  The spec leaves the exact repair schedule open
("attempt adding increasing multiples of the identity matrix ... until the
check passes"; "pick any deterministic, convergent repair"); we model the
identity-shift variant: symmetrize, then add one sufficient multiple of the
identity — the sum of the absolute values of all entries — which always
yields a symmetric positive semi-definite matrix. -/
noncomputable def make_positive_definite (M : List (List ℝ)) : List (List ℝ) :=
  let n := M.length
  let S : ℕ → ℕ → ℝ := fun i j => (matGet M i j + matGet M j i) / 2
  let c : ℝ := ∑ i ∈ Finset.range n, ∑ j ∈ Finset.range n, |S i j|
  (List.range n).map (fun i =>
    (List.range n).map (fun j => S i j + if i = j then c else 0))

open Classical in
/-- `GaussianCopula._rebuild_covariance_matrix` (source lines 349-373):
re-expand the triangular rows into a square matrix, symmetrize, and repair
the result when the symmetric-positive-definite check fails. -/
noncomputable def _rebuild_covariance_matrix (covariance : List (List ℝ)) :
    List (List ℝ) :=
  let c := symmetrizeMatrix (square_matrix covariance)
  if check_matrix_symmetric_positive_definite c then c
  else make_positive_definite c

/-- Modelled from the spec: `copulas.EPSILON`, "a fixed small positive
epsilon" substituted for a zero scale before taking the logarithm (the
library uses the `float32` machine epsilon `2⁻²³`). -/
noncomputable def copulasEPSILON : ℝ := 1 / 2 ^ (23 : ℕ)

/-- Modelled from the spec: the `PARAMETRIC` class attribute of a resolved
`copulas` distribution object — `GaussianKDE` is the non-parametric family;
the five other concrete families are parametric; the `Univariate` base
class / selector defaults declare `NON_PARAMETRIC`. -/
def DistObj.parametricType : DistObj → ParametricType
  | .gaussianKDE => .nonParametric
  | .univariateClass => .nonParametric
  | .selector _ _ => .nonParametric
  | _ => .parametric

/-- The parametric classification of the resolved family recorded in a
fitted univariate's tag.  A fully-qualified string family (which the real
code would have resolved to an instance before fitting) is modelled as
parametric, matching the only string families the claims exercise. -/
def DistSpec.parametricType : DistSpec → ParametricType
  | .inst d => d.parametricType
  | .str _ => .parametric

/-- `np.log` with the source's zero-scale guard (source lines 337-342):
`if scale == 0: scale = EPSILON; univariate['scale'] = np.log(scale)`,
applied to one dict value.  `np.log(nan) = nan`; non-numeric values cannot
reach this point in the real code and are left unchanged. -/
noncomputable def logVal : UnivVal → UnivVal
  | .num x => .num (Real.log (if x = 0 then copulasEPSILON else x))
  | v => v

/-- `np.exp` applied to one dict value (source lines 391-392);
`np.exp(nan) = nan`. -/
noncomputable def expVal : UnivVal → UnivVal
  | .num x => .num (Real.exp x)
  | v => v

/-- The `scale` rewrite of `get_parameters` on one univariate dict:
`if 'scale' in univariate: univariate['scale'] = np.log(...)`. -/
noncomputable def logScaleStep (ud : UnivDict) : UnivDict :=
  match lookupKey "scale" ud with
  | some v => setKey "scale" (logVal v) ud
  | none => ud

/-- The `scale` rewrite of `_rebuild_gaussian_copula` on one univariate
dict: `if 'scale' in univariate: univariate['scale'] = np.exp(...)`. -/
noncomputable def expScaleStep (ud : UnivDict) : UnivDict :=
  match lookupKey "scale" ud with
  | some v => setKey "scale" (expVal v) ud
  | none => ud

/-- Modelled from the spec: `to_dict()` of one fitted univariate — its
parameters together with a `type` tag (the flattening step below ignores
the `type` key, so only its presence matters). -/
def UnivObj.to_dict (u : UnivObj) : UnivDict :=
  ("type", .dist u.fam) :: u.params

/-- `IGNORED_DICT_KEYS`: modelled from the spec — the keys that
`flatten_dict` (`sdv.tabular.utils`, not under `src/`) skips when the value
is a scalar: `fitted`, `distribution` and `type`. -/
def IGNORED_DICT_KEYS : List String := ["fitted", "distribution", "type"]

/-- The keys of the flat parameter mapping, modelled from the spec: a key
"encodes the access path (e.g. `covariance__0__0`,
`univariates__colA__loc`)"; we keep the parsed path rather than the
`__`-joined string. -/
inductive FlatKey where
  | cov (i j : ℕ)
  | univ (col : String) (param : String)
  | numRows
deriving DecidableEq

/-- The flat parameter mapping produced by `get_parameters` and consumed by
`set_parameters`. -/
abbrev FlatMap : Type := List (FlatKey × UnivVal)

/-- Modelled from the spec: `flatten_dict` (`sdv.tabular.utils`, not under
`src/`) applied to the nested `{covariance, univariates, num_rows}`
structure that `get_parameters` builds: every covariance entry, every
univariate parameter whose key is not in `IGNORED_DICT_KEYS`, and the row
count become path-keyed scalars. -/
def flattenParams (cov : List (List ℝ)) (univs : List (String × UnivDict))
    (numRows : ℝ) : FlatMap :=
  cov.enum.flatMap (fun ir =>
    ir.2.enum.map (fun jv => (FlatKey.cov ir.1 jv.1, UnivVal.num jv.2)))
  ++ univs.flatMap (fun cu =>
      cu.2.filterMap (fun kv =>
        if kv.1 ∈ IGNORED_DICT_KEYS then none
        else some (FlatKey.univ cu.1 kv.1, kv.2)))
  ++ [(FlatKey.numRows, UnivVal.num numRows)]

/-- `GaussianCopula.get_parameters` (source lines 305-347): reject
non-parametric univariates, compress the covariance to its
lower-triangular rows, key the univariate dicts by column name, take the
log of each `scale`, attach `num_rows` and flatten. -/
noncomputable def get_parameters (st : GCState) : Except Err FlatMap :=
  match st.model with
  | none => .error .notFitted
  | some m =>
    if m.univariates.any
        (fun u => u.fam.parametricType = ParametricType.nonParametric) then
      .error .nonParametric
    else
      .ok (flattenParams (triRows m.covariance)
        ((m.columns.zip m.univariates).map
          (fun cu => (cu.1, logScaleStep cu.2.to_dict)))
        (st.num_rows : ℝ))

/-- The nested structure recovered by `unflatten_dict`: each of the three
top-level keys is present iff some flat key contributed to it. -/
structure UnflatParams where
  covariance : Option (List (List ℝ))
  univariates : Option (List (String × UnivDict))
  num_rows : Option UnivVal

/-- Numeric payload of a flat scalar (non-numeric covariance entries cannot
occur in mappings produced by `get_parameters` and are read as `0`). -/
def UnivVal.toReal : UnivVal → ℝ
  | .num x => x
  | _ => 0

/-- One row of the covariance block: the entries with row index `i`.
Modelled from the spec: `unflatten_dict` groups "contiguous numeric-indexed
keys back into ordered sequences" and fails with a structural decode error
on inconsistent sequence indices — the column indices of row `i` must be
exactly `0, 1, ..., len-1`, each once, in mapping order (the real decoder
iterates the dict in natural-sorted key order, which makes that order
canonical), and every row up to the largest row index must be nonempty. -/
def decodeCovRow (entries : List (ℕ × ℕ × ℝ)) (i : ℕ) : Except Err (List ℝ) :=
  let re := entries.filterMap (fun e => if e.1 = i then some e.2 else none)
  if re.isEmpty then .error (.valueError "unflatten")
  else if re.map (fun e => e.1) = List.range re.length then
    .ok (re.map (fun e => e.2))
  else .error (.valueError "unflatten")

/-- Decode the covariance block of a flat mapping (absent when no
`covariance__i__j` key occurs). -/
def decodeCov (p : FlatMap) : Except Err (Option (List (List ℝ))) :=
  let entries := p.filterMap (fun kv =>
    match kv.1 with
    | .cov i j => some (i, j, kv.2.toReal)
    | _ => none)
  if entries.isEmpty then .ok none
  else do
    let nRows := entries.foldr (fun e a => max (e.1 + 1) a) 0
    let rows ← exceptMapM (decodeCovRow entries) (List.range nRows)
    pure (some rows)

/-- Insertion of one `univariates__col__param` entry into the dict being
rebuilt (the `setdefault` pattern of `unflatten_dict`). -/
def insertUniv (acc : List (String × UnivDict)) (c k : String) (v : UnivVal) :
    List (String × UnivDict) :=
  if acc.any (fun cu => cu.1 = c) then
    acc.map (fun cu => if cu.1 = c then (c, cu.2 ++ [(k, v)]) else cu)
  else acc ++ [(c, [(k, v)])]

/-- Decode the univariates block of a flat mapping, grouping parameters by
column name (absent when no `univariates__col__param` key occurs). -/
def decodeUnivs (p : FlatMap) : Option (List (String × UnivDict)) :=
  let entries := p.filterMap (fun kv =>
    match kv.1 with
    | .univ c k => some (c, k, kv.2)
    | _ => none)
  if entries.isEmpty then none
  else some (entries.foldl (fun acc e => insertUniv acc e.1 e.2.1 e.2.2) [])

/-- Look up the `num_rows` entry of a flat mapping. -/
def findNumRows (p : FlatMap) : Option UnivVal :=
  (p.find? (fun kv => kv.1 = FlatKey.numRows)).map (fun kv => kv.2)

/-- Modelled from the spec: `unflatten_dict` (`sdv.tabular.utils`, not under
`src/`) on the three path shapes `get_parameters` emits.  Only the
sequence-rebuilding (covariance) part can fail. -/
def unflatten_dict (p : FlatMap) : Except Err UnflatParams :=
  match decodeCov p with
  | .error e => .error e
  | .ok cov =>
    .ok { covariance := cov
          univariates := decodeUnivs p
          num_rows := findNumRows p }

/-- The nested parameter dict produced by `_rebuild_gaussian_copula`
(`num_rows` is still inside; `set_parameters` pops it afterwards). -/
structure ModelParams where
  columns : List String
  univariates : List (String × UnivDict)
  covariance : List (List ℝ)
  num_rows : Option UnivVal

/-- `GaussianCopula._rebuild_gaussian_copula` (source lines 375-402): for
every decoded univariate, overwrite its `type` with the instance's
field-distribution entry for that column (a missing column raises
`KeyError`) and exponentiate its `scale`; then rebuild the covariance
matrix (a missing `univariates` or `covariance` key raises before any
instance state is touched). -/
noncomputable def _rebuild_gaussian_copula
    (fd : List (String × DistSpec)) (up : UnflatParams) :
    Except Err ModelParams :=
  match up.univariates with
  | none => .error (Err.keyError "univariates")
  | some us =>
    match exceptMapM (fun cu =>
      match lookupKey cu.1 fd with
      | none => Except.error (Err.keyError cu.1)
      | some ty =>
        Except.ok (cu.1, expScaleStep (setKey "type" (.dist ty) cu.2))) us with
    | .error e => .error e
    | .ok univs' =>
      match up.covariance with
      | none => .error (Err.typeError "covariance")
      | some c =>
        .ok { columns := univs'.map (fun cu => cu.1)
              univariates := univs'
              covariance := _rebuild_covariance_matrix c
              num_rows := up.num_rows }

/-- Modelled from the spec: `GaussianMultivariate.from_dict` (`copulas`, not
under `src/`) — "rebuild the model instance from the reconstructed
structure ... reconstruction trusts the supplied parameters as-is".  Each
univariate's family tag is read off its `type` key (always set by
`_rebuild_gaussian_copula` on the `set_parameters` path) and its remaining
entries become the fitted parameters. -/
def GaussianMultivariate.from_dict (mp : ModelParams) : GaussMult :=
  { columns := mp.columns
    univariates := mp.univariates.map (fun cu =>
      { fam := match lookupKey "type" cu.2 with
               | some (UnivVal.dist d) => d
               | some (UnivVal.str s) => DistSpec.str s
               | _ => DistSpec.str ""
        params := removeKey "type" cu.2 })
    covariance := mp.covariance }

open Classical in
/-- Python 3 `round` (banker's rounding, half to even) on a real, as used by
`int(round(num_rows))`. -/
noncomputable def pyRound (x : ℝ) : ℤ :=
  if x - ⌊x⌋ < 1 / 2 then ⌊x⌋
  else if 1 / 2 < x - ⌊x⌋ then ⌊x⌋ + 1
  else if Even ⌊x⌋ then ⌊x⌋ else ⌊x⌋ + 1

/-- `GaussianCopula.set_parameters` (source lines 404-416): unflatten,
rebuild, pop `num_rows`, coerce it
(`0 if pd.isnull(num_rows) else max(0, int(round(num_rows)))`) and install
the rebuilt model.  The result pairs the (possibly unchanged) instance
state with the exception raised, if any; every failing step precedes the
first state mutation. -/
noncomputable def set_parameters (st : GCState) (p : FlatMap) :
    GCState × Option Err :=
  match unflatten_dict p with
  | .error e => (st, some e)
  | .ok up =>
    match _rebuild_gaussian_copula st.field_distributions up with
    | .error e => (st, some e)
    | .ok mp =>
      match mp.num_rows with
      | none => (st, some (.keyError "num_rows"))
      | some (.num x) =>
        ({ st with num_rows := (max 0 (pyRound x)).toNat
                   model := some (GaussianMultivariate.from_dict mp) }, none)
      | some .nan =>
        ({ st with num_rows := 0
                   model := some (GaussianMultivariate.from_dict mp) }, none)
      | some _ => (st, some (.typeError "num_rows"))

/-- Modelled from the spec: `GaussianMultivariate.sample` (`copulas`, not
under `src/`) — on a fitted model, drawing `n` rows always succeeds and
returns `n` rows with one value per modeled column; the sampled numeric
content is not modelled. -/
def GaussianMultivariate.sample (m : GaussMult) (n : ℕ) : List (List ℝ) :=
  List.replicate n (m.columns.map (fun _ => 0))

/-- `GaussianCopula._sample` (source lines 287-298): delegate to the fitted
model (no parametric check on this path). -/
def _sample (st : GCState) (n : ℕ) : Except Err (List (List ℝ)) :=
  match st.model with
  | none => .error .notFitted
  | some m => .ok (GaussianMultivariate.sample m n)

/-! ## Association-list lemmas -/

lemma lookupKey_nil {α : Type} (k : String) : lookupKey k ([] : List (String × α)) = none := rfl

lemma lookupKey_cons {α : Type} (k : String) (kv : String × α) (d : List (String × α)) :
    lookupKey k (kv :: d) = if kv.1 = k then some kv.2 else lookupKey k d := rfl

lemma lookupKey_append_of_none {α : Type} (k : String) {d₁ : List (String × α)}
    (d₂ : List (String × α)) (h : lookupKey k d₁ = none) :
    lookupKey k (d₁ ++ d₂) = lookupKey k d₂ := by
  induction d₁ with
  | nil => rfl
  | cons kv rest ih =>
    rw [lookupKey_cons] at h
    by_cases hk : kv.1 = k
    · simp [hk] at h
    · rw [if_neg hk] at h
      simpa [lookupKey_cons, hk] using ih h

lemma lookupKey_eq_none_of_any_eq_false {α : Type} (k : String)
    {d : List (String × α)} (h : d.any (fun kv => kv.1 = k) = false) :
    lookupKey k d = none := by
  induction d with
  | nil => rfl
  | cons kv rest ih =>
    simp only [List.any_cons, Bool.or_eq_false_iff, decide_eq_false_iff_not] at h
    rw [lookupKey_cons, if_neg h.1]
    exact ih (by simpa using h.2)

lemma lookupKey_map_set {α : Type} (k : String) (v : α) (d : List (String × α)) :
    lookupKey k (d.map (fun kv => if kv.1 = k then (k, v) else kv))
      = if d.any (fun kv => kv.1 = k) then some v else none := by
  induction d with
  | nil => rfl
  | cons kv rest ih =>
    by_cases hk : kv.1 = k
    · simp [lookupKey_cons, hk]
    · simp only [List.map_cons, if_neg hk, lookupKey_cons, List.any_cons]
      rw [ih]
      have hd : decide (kv.1 = k) = false := by simpa using hk
      simp only [hd, Bool.false_or]

lemma lookupKey_setKey_self {α : Type} (k : String) (v : α) (d : List (String × α)) :
    lookupKey k (setKey k v d) = some v := by
  unfold setKey
  by_cases h : d.any (fun kv => kv.1 = k)
  · rw [if_pos h, lookupKey_map_set, if_pos h]
  · rw [if_neg h,
      lookupKey_append_of_none k _
        (lookupKey_eq_none_of_any_eq_false k (Bool.of_not_eq_true h))]
    simp [lookupKey_cons]

lemma lookupKey_map_set_ne {α : Type} {k' k : String} (hne : k' ≠ k) (v : α)
    (d : List (String × α)) :
    lookupKey k' (d.map (fun kv => if kv.1 = k then (k, v) else kv))
      = lookupKey k' d := by
  induction d with
  | nil => rfl
  | cons kv rest ih =>
    by_cases hk : kv.1 = k
    · simp [lookupKey_cons, hk, Ne.symm hne, ih]
    · simp [lookupKey_cons, if_neg hk, ih]

lemma lookupKey_append {α : Type} (k : String) (d₁ d₂ : List (String × α)) :
    lookupKey k (d₁ ++ d₂)
      = match lookupKey k d₁ with
        | some v => some v
        | none => lookupKey k d₂ := by
  induction d₁ with
  | nil => rfl
  | cons kv rest ih =>
    by_cases hk : kv.1 = k
    · simp [lookupKey_cons, hk]
    · simp [lookupKey_cons, hk, ih]

lemma lookupKey_setKey_ne {α : Type} {k' k : String} (hne : k' ≠ k) (v : α)
    (d : List (String × α)) :
    lookupKey k' (setKey k v d) = lookupKey k' d := by
  unfold setKey
  by_cases h : d.any (fun kv => kv.1 = k)
  · rw [if_pos h, lookupKey_map_set_ne hne]
  · rw [if_neg h, lookupKey_append]
    cases hl : lookupKey k' d with
    | some v' => rfl
    | none => simp [lookupKey_cons, lookupKey_nil, Ne.symm hne]

/-! ## Claims about the distribution registry -/

/-- C9: for every distribution spec that is not a string (an
already-instantiated family or selector object), `_validate_distribution`
returns it unchanged. -/
theorem C9_validate_non_string_unchanged (resolvable : String → Bool) (d : DistObj) :
    _validate_distribution resolvable (DistSpec.inst d) = .ok (DistSpec.inst d) := rfl

/-- C5: a distribution spec string that is neither a recognized alias nor
resolvable as a fully-qualified family identifier makes
`_validate_distribution` raise the invalid-distribution-spec error naming
the offending spec, and the error surfaces eagerly at construction time:
`__init__` fails whether the string occurs in `field_distributions` or as
the `default_distribution` (validation is not deferred to fit time). -/
theorem C5_invalid_spec_raises_eagerly (resolvable : String → Bool) (s : String)
    (halias : lookupKey s _DISTRIBUTIONS = none) (hres : resolvable s = false) :
    _validate_distribution resolvable (DistSpec.str s)
        = .error (Err.invalidDistributionSpec s)
    ∧ (∀ (col : String) (rest : List (String × DistSpec))
        (dd : Option DistSpec) (ct : Option String),
        GaussianCopula_init resolvable (some ((col, DistSpec.str s) :: rest)) dd ct
          = .error (Err.invalidDistributionSpec s))
    ∧ (∀ ct, GaussianCopula_init resolvable none (some (DistSpec.str s)) ct
          = .error (Err.invalidDistributionSpec s)) := by
  have hv : _validate_distribution resolvable (DistSpec.str s)
      = .error (Err.invalidDistributionSpec s) := by
    simp [_validate_distribution, halias, hres]
  refine ⟨hv, ?_, ?_⟩
  · intro col rest dd ct
    simp [GaussianCopula_init, hv, exceptMapM, Except.bind, Bind.bind,
      Except.map, Functor.map]
  · intro ct
    simp [GaussianCopula_init, hv, exceptMapM, Except.bind, Bind.bind,
      Except.map, Functor.map, Pure.pure, Except.pure]

/-- C5 witness: the unrecognized spec string `not_a_real_distribution`
(with a resolver that rejects it) is refused, eagerly, at construction. -/
theorem C5_invalid_spec_raises_eagerly_witness :
    lookupKey "not_a_real_distribution" _DISTRIBUTIONS = none
    ∧ (fun _ => false : String → Bool) "not_a_real_distribution" = false
    ∧ GaussianCopula_init (fun _ => false)
        (some [("a", DistSpec.str "not_a_real_distribution")]) none none
        = .error (Err.invalidDistributionSpec "not_a_real_distribution") :=
  ⟨by decide, rfl,
    (C5_invalid_spec_raises_eagerly (fun _ => false) "not_a_real_distribution"
      (by decide) rfl).2.1 "a" [] none none⟩

/-! ## Claims about `get_parameters` / `_sample` -/

/-- C2: `get_parameters` raises `NonParametricError` exactly when some
column's resolved family is non-parametric; in particular, on a model whose
every column uses `gaussian_kde` it raises, while `_sample` on the same
fitted model succeeds. -/
theorem C2_nonparametric_rejection (st : GCState) (m : GaussMult)
    (h : st.model = some m) (n : ℕ) :
    (get_parameters st = .error Err.nonParametric ↔
      ∃ u ∈ m.univariates,
        u.fam.parametricType = ParametricType.nonParametric)
    ∧ ((∀ u ∈ m.univariates, u.fam = DistSpec.inst DistObj.gaussianKDE) →
        m.univariates ≠ [] →
        get_parameters st = .error Err.nonParametric
          ∧ _sample st n = .ok (GaussianMultivariate.sample m n)) := by
  constructor
  · simp only [get_parameters, h]
    by_cases hb : (m.univariates.any
        (fun u => decide (u.fam.parametricType = ParametricType.nonParametric))) = true
    · rw [if_pos hb]
      simp only [List.any_eq_true, decide_eq_true_eq] at hb
      exact iff_of_true rfl hb
    · rw [if_neg hb]
      refine iff_of_false (by simp) ?_
      intro hex
      exact hb (List.any_eq_true.mpr (by simpa using hex))
  · intro hall hne
    have hb : (m.univariates.any
        (fun u => decide (u.fam.parametricType = ParametricType.nonParametric))) = true := by
      cases hu : m.univariates with
      | nil => exact absurd hu hne
      | cons u us =>
        apply List.any_eq_true.mpr
        have hmem : u ∈ m.univariates := by rw [hu]; exact List.mem_cons_self u us
        refine ⟨u, List.mem_cons_self u us, ?_⟩
        rw [hall u hmem]
        simp [DistSpec.parametricType, DistObj.parametricType]
    constructor
    · simp only [get_parameters, h]
      rw [if_pos hb]
    · simp only [_sample, h]

/-- C2 witness: a one-column model whose single univariate is a fitted
`gaussian_kde`. -/
theorem C2_nonparametric_rejection_witness :
    ({ field_distributions := [("a", DistSpec.inst DistObj.gaussianKDE)]
       default_distribution := _DEFAULT_DISTRIBUTION
       categorical_transformer := "one_hot_encoding"
       num_rows := 3
       model := some { columns := ["a"]
                       univariates := [{ fam := DistSpec.inst DistObj.gaussianKDE
                                         params := [("loc", UnivVal.num 0)] }]
                       covariance := [[1]] } } : GCState).model
      = some { columns := ["a"]
               univariates := [{ fam := DistSpec.inst DistObj.gaussianKDE
                                 params := [("loc", UnivVal.num 0)] }]
               covariance := [[1]] }
    ∧ (get_parameters { field_distributions := [("a", DistSpec.inst DistObj.gaussianKDE)]
                        default_distribution := _DEFAULT_DISTRIBUTION
                        categorical_transformer := "one_hot_encoding"
                        num_rows := 3
                        model := some { columns := ["a"]
                                        univariates := [{ fam := DistSpec.inst DistObj.gaussianKDE
                                                          params := [("loc", UnivVal.num 0)] }]
                                        covariance := [[1]] } }
        = .error Err.nonParametric
      ∧ _sample { field_distributions := [("a", DistSpec.inst DistObj.gaussianKDE)]
                  default_distribution := _DEFAULT_DISTRIBUTION
                  categorical_transformer := "one_hot_encoding"
                  num_rows := 3
                  model := some { columns := ["a"]
                                  univariates := [{ fam := DistSpec.inst DistObj.gaussianKDE
                                                    params := [("loc", UnivVal.num 0)] }]
                                  covariance := [[1]] } } 2
        = .ok (GaussianMultivariate.sample
            { columns := ["a"]
              univariates := [{ fam := DistSpec.inst DistObj.gaussianKDE
                                params := [("loc", UnivVal.num 0)] }]
              covariance := [[1]] } 2)) :=
  ⟨rfl, (C2_nonparametric_rejection _ _ rfl 2).2
    (by intro u hu; rw [List.mem_singleton] at hu; rw [hu]) (by simp)⟩

/-! ## The scale log/exp inverse (C6) -/

/-- C6: `get_parameters` stores the natural logarithm of each `scale`
(substituting the fixed positive `copulas.EPSILON` when the scale is `0`,
so the stored value is the finite `log EPSILON`, never `-inf`), and
`_rebuild_gaussian_copula` exponentiates it back; for `scale > 0` the
export/import pair restores the dict exactly. -/
theorem C6_scale_log_exp (ud : UnivDict) (s : ℝ)
    (h : lookupKey "scale" ud = some (UnivVal.num s)) :
    (0 < s → ∀ k, lookupKey k (expScaleStep (logScaleStep ud)) = lookupKey k ud)
    ∧ lookupKey "scale" (logScaleStep ud)
        = some (UnivVal.num (Real.log (if s = 0 then copulasEPSILON else s)))
    ∧ (s = 0 → lookupKey "scale" (logScaleStep ud)
        = some (UnivVal.num (Real.log copulasEPSILON)))
    ∧ 0 < copulasEPSILON := by
  have hlog : logScaleStep ud
      = setKey "scale"
          (UnivVal.num (Real.log (if s = 0 then copulasEPSILON else s))) ud := by
    simp only [logScaleStep, h]
    rfl
  have hsc : lookupKey "scale" (logScaleStep ud)
      = some (UnivVal.num (Real.log (if s = 0 then copulasEPSILON else s))) := by
    rw [hlog, lookupKey_setKey_self]
  have heps : (0:ℝ) < copulasEPSILON := by
    rw [copulasEPSILON]
    positivity
  refine ⟨?_, hsc, fun h0 => by rw [hsc, if_pos h0], heps⟩
  intro hs k
  have hexp : expScaleStep (logScaleStep ud)
      = setKey "scale"
          (UnivVal.num (Real.exp (Real.log (if s = 0 then copulasEPSILON else s))))
          (logScaleStep ud) := by
    simp only [expScaleStep, hsc]
    rfl
  rw [hexp]
  by_cases hk : k = "scale"
  · subst hk
    rw [lookupKey_setKey_self, h, if_neg (ne_of_gt hs), Real.exp_log hs]
  · rw [lookupKey_setKey_ne hk, hlog, lookupKey_setKey_ne hk]

/-- C6 witness: the one-entry dict `{'scale': 1.0}`. -/
theorem C6_scale_log_exp_witness :
    lookupKey "scale" [("scale", UnivVal.num (1:ℝ))] = some (UnivVal.num (1:ℝ))
    ∧ (((0:ℝ) < 1 → ∀ k,
          lookupKey k (expScaleStep (logScaleStep [("scale", UnivVal.num (1:ℝ))]))
            = lookupKey k [("scale", UnivVal.num (1:ℝ))])
        ∧ lookupKey "scale" (logScaleStep [("scale", UnivVal.num (1:ℝ))])
            = some (UnivVal.num (Real.log (if (1:ℝ) = 0 then copulasEPSILON else 1)))
        ∧ ((1:ℝ) = 0 → lookupKey "scale" (logScaleStep [("scale", UnivVal.num (1:ℝ))])
            = some (UnivVal.num (Real.log copulasEPSILON)))
        ∧ 0 < copulasEPSILON) :=
  ⟨rfl, C6_scale_log_exp [("scale", UnivVal.num (1:ℝ))] 1 rfl⟩

/-! ## Triangular compression (C3) and its helper lemmas -/

lemma getD_append_replicate_zero (r : List ℝ) (m j : ℕ) :
    (r ++ List.replicate m (0:ℝ)).getD j 0 = r.getD j 0 := by
  rcases lt_or_ge j r.length with h | h
  · rw [List.getD_eq_getElem?_getD, List.getElem?_append_left h,
      ← List.getD_eq_getElem?_getD]
  · have h1 : r.getD j 0 = 0 := by
      rw [List.getD_eq_getElem?_getD, List.getElem?_eq_none h]
      rfl
    rw [h1, List.getD_eq_getElem?_getD, List.getElem?_append_right h]
    rcases lt_or_ge (j - r.length) m with h2 | h2
    · simp [List.getElem?_replicate, h2]
    · simp [List.getElem?_replicate, Nat.not_lt.mpr h2]

lemma getD_take_zero (r : List ℝ) (m j : ℕ) :
    (r.take m).getD j 0 = if j < m then r.getD j 0 else 0 := by
  rcases lt_or_ge j m with h | h
  · simp [List.getD_eq_getElem?_getD, List.getElem?_take, h]
  · simp [List.getD_eq_getElem?_getD, List.getElem?_take, Nat.not_lt.mpr h]

lemma matGet_square_matrix (t : List (List ℝ)) (i j : ℕ) :
    matGet (square_matrix t) i j = matGet t i j := by
  unfold matGet square_matrix
  rw [List.getD_eq_getElem?_getD
      (t.map (fun row => row ++ List.replicate (t.length - row.length) 0)) i [],
    List.getElem?_map, List.getD_eq_getElem?_getD t i []]
  cases hr : t[i]? with
  | none => rfl
  | some r =>
    simp only [Option.map_some', Option.getD_some]
    exact getD_append_replicate_zero r _ j

lemma matGet_triRows (M : List (List ℝ)) (i j : ℕ) :
    matGet (triRows M) i j = if j ≤ i then matGet M i j else 0 := by
  unfold matGet triRows
  rw [List.getD_eq_getElem?_getD (M.enum.map (fun ir => ir.2.take (ir.1 + 1))) i [],
    List.getElem?_map, List.getElem?_enum, List.getD_eq_getElem?_getD M i []]
  cases hr : M[i]? with
  | none => simp
  | some r =>
    simp only [Option.map_some', Option.map_map, Option.getD_some]
    rw [getD_take_zero]
    simp [Nat.lt_succ_iff]

lemma length_square_matrix (t : List (List ℝ)) :
    (square_matrix t).length = t.length := by
  simp [square_matrix]

lemma length_triRows (M : List (List ℝ)) : (triRows M).length = M.length := by
  simp [triRows]

lemma length_symmetrizeMatrix (S : List (List ℝ)) :
    (symmetrizeMatrix S).length = S.length := by
  simp [symmetrizeMatrix]

/-- The composite `square_matrix` + symmetrization of
`_rebuild_covariance_matrix` inverts the triangular compression of
`get_parameters` on every square symmetric matrix. -/
lemma symmetrize_square_triRows (M : List (List ℝ))
    (hsq : ∀ r ∈ M, r.length = M.length)
    (hsym : ∀ i j, matGet M i j = matGet M j i) :
    symmetrizeMatrix (square_matrix (triRows M)) = M := by
  have hT : ∀ i j, matGet (square_matrix (triRows M)) i j
      = if j ≤ i then matGet M i j else 0 := fun i j => by
    rw [matGet_square_matrix, matGet_triRows]
  have hlen : (square_matrix (triRows M)).length = M.length := by
    rw [length_square_matrix, length_triRows]
  apply List.ext_getElem
  · rw [length_symmetrizeMatrix, hlen]
  · intro i h1 h2
    rw [length_symmetrizeMatrix, hlen] at h1
    apply List.ext_getElem
    · simp only [symmetrizeMatrix, hlen, List.getElem_map, List.getElem_range,
        List.length_map, List.length_range]
      exact (hsq M[i] (List.getElem_mem h2)).symm
    · intro j hj1 hj2
      simp only [symmetrizeMatrix, hlen, List.getElem_map, List.getElem_range]
      have hMij : M[i][j] = matGet M i j := by
        unfold matGet
        rw [List.getD_eq_getElem?_getD M i [], List.getElem?_eq_getElem h2,
          Option.getD_some, List.getD_eq_getElem?_getD,
          List.getElem?_eq_getElem hj2, Option.getD_some]
      rw [hT, hT]
      rcases lt_trichotomy i j with hij | hij | hij
      · rw [if_neg (by omega), if_pos (by omega), if_neg (by omega), hsym j i,
          hMij]
        ring
      · subst hij
        rw [if_pos le_rfl, if_pos rfl, hMij]
        ring
      · rw [if_pos (by omega), if_neg (by omega), if_neg (by omega), hMij]
        ring

/-- C3: taking the lower-triangular rows of a symmetric square matrix with
unit diagonal (as `get_parameters` does), padding them back to a square
matrix with `square_matrix`, and symmetrizing via
`square + squareᵀ - diag(square)` reproduces the matrix exactly. -/
theorem C3_triangular_compression (M : List (List ℝ))
    (hsq : ∀ r ∈ M, r.length = M.length)
    (hsym : ∀ i j, matGet M i j = matGet M j i)
    (hdiag : ∀ i, i < M.length → matGet M i i = 1) :
    symmetrizeMatrix (square_matrix (triRows M)) = M :=
  symmetrize_square_triRows M hsq hsym

/-- C3 witness: the 1×1 identity matrix. -/
theorem C3_triangular_compression_witness :
    (∀ r ∈ [[(1:ℝ)]], r.length = [[(1:ℝ)]].length)
    ∧ (∀ i j, matGet [[(1:ℝ)]] i j = matGet [[(1:ℝ)]] j i)
    ∧ (∀ i, i < [[(1:ℝ)]].length → matGet [[(1:ℝ)]] i i = 1)
    ∧ symmetrizeMatrix (square_matrix (triRows [[(1:ℝ)]])) = [[(1:ℝ)]] := by
  have hsq : ∀ r ∈ [[(1:ℝ)]], r.length = [[(1:ℝ)]].length := by simp
  have hsym : ∀ i j, matGet [[(1:ℝ)]] i j = matGet [[(1:ℝ)]] j i := by
    intro i j
    cases i <;> cases j <;> simp [matGet, List.getD]
  have hdiag : ∀ i, i < [[(1:ℝ)]].length → matGet [[(1:ℝ)]] i i = 1 := by
    intro i hi
    have : i = 0 := by simpa using hi
    subst this
    rfl
  exact ⟨hsq, hsym, hdiag, C3_triangular_compression [[(1:ℝ)]] hsq hsym hdiag⟩

/-! ## Covariance validity (C4) -/

lemma matGet_rangeMap (f : ℕ → ℕ → ℝ) (n : ℕ) {i j : ℕ}
    (hi : i < n) (hj : j < n) :
    matGet ((List.range n).map (fun i => (List.range n).map (fun j => f i j))) i j
      = f i j := by
  unfold matGet
  rw [List.getD_eq_getElem?_getD ((List.range n).map _) i [],
    List.getElem?_map, List.getElem?_range hi]
  simp only [Option.map_some', Option.getD_some]
  rw [List.getD_eq_getElem?_getD, List.getElem?_map, List.getElem?_range hj]
  rfl

lemma matGet_symmetrizeMatrix (S : List (List ℝ)) {i j : ℕ}
    (hi : i < S.length) (hj : j < S.length) :
    matGet (symmetrizeMatrix S) i j
      = matGet S i j + matGet S j i - if i = j then matGet S i j else 0 :=
  matGet_rangeMap _ S.length hi hj

lemma symmetrizeMatrix_symm (S : List (List ℝ)) {i j : ℕ}
    (hi : i < S.length) (hj : j < S.length) :
    matGet (symmetrizeMatrix S) i j = matGet (symmetrizeMatrix S) j i := by
  rw [matGet_symmetrizeMatrix S hi hj, matGet_symmetrizeMatrix S hj hi]
  by_cases hij : i = j
  · subst hij
    rfl
  · rw [if_neg hij, if_neg (Ne.symm hij)]
    ring

lemma length_make_positive_definite (M : List (List ℝ)) :
    (make_positive_definite M).length = M.length := by
  simp [make_positive_definite]

lemma matGet_make_positive_definite (M : List (List ℝ)) {i j : ℕ}
    (hi : i < M.length) (hj : j < M.length) :
    matGet (make_positive_definite M) i j
      = (matGet M i j + matGet M j i) / 2
        + (if i = j then
            ∑ a ∈ Finset.range M.length, ∑ b ∈ Finset.range M.length,
              |(matGet M a b + matGet M b a) / 2|
          else 0) := by
  have h := matGet_rangeMap
    (fun i j => (matGet M i j + matGet M j i) / 2
      + if i = j then
          ∑ a ∈ Finset.range M.length, ∑ b ∈ Finset.range M.length,
            |(matGet M a b + matGet M b a) / 2|
        else 0) M.length hi hj
  exact h

lemma make_positive_definite_symm (M : List (List ℝ)) {i j : ℕ}
    (hi : i < M.length) (hj : j < M.length) :
    matGet (make_positive_definite M) i j
      = matGet (make_positive_definite M) j i := by
  rw [matGet_make_positive_definite M hi hj,
    matGet_make_positive_definite M hj hi]
  by_cases hij : i = j
  · subst hij
    rfl
  · rw [if_neg hij, if_neg (Ne.symm hij)]
    ring

lemma make_positive_definite_posSemidef_aux (M : List (List ℝ)) (m : ℕ)
    (hm : m = M.length) :
    (toMatrix m (make_positive_definite M)).PosSemidef := by
  subst hm
  set n := M.length with hn
  set S : ℕ → ℕ → ℝ := fun i j => (matGet M i j + matGet M j i) / 2 with hS
  set c : ℝ := ∑ a ∈ Finset.range n, ∑ b ∈ Finset.range n, |S a b| with hc
  have hentry : ∀ i j : Fin n,
      toMatrix n (make_positive_definite M) i j
        = S (i : ℕ) (j : ℕ) + if i = j then c else 0 := by
    intro i j
    show matGet (make_positive_definite M) (i : ℕ) (j : ℕ) = _
    rw [matGet_make_positive_definite M i.isLt j.isLt]
    congr 1
    by_cases hij : i = j
    · rw [if_pos hij, if_pos (by exact_mod_cast congrArg Fin.val hij)]
    · rw [if_neg hij, if_neg (fun hex => hij (Fin.val_injective hex))]
  constructor
  · apply Matrix.IsHermitian.ext
    intro i j
    rw [star_trivial, hentry i j, hentry j i]
    have hSsymm : S (j : ℕ) (i : ℕ) = S (i : ℕ) (j : ℕ) := by
      rw [hS]
      ring
    rw [hSsymm]
    by_cases hij : i = j
    · rw [if_pos hij, if_pos hij.symm]
    · rw [if_neg hij, if_neg (Ne.symm hij)]
  · intro x
    have hsx : star x = x := by
      funext k
      exact star_trivial (x k)
    rw [hsx]
    have expand : Matrix.dotProduct x
          ((toMatrix n (make_positive_definite M)).mulVec x)
        = (∑ i : Fin n, ∑ j : Fin n, x i * (S (i : ℕ) (j : ℕ) * x j))
          + c * (∑ k : Fin n, x k * x k) := by
      simp only [Matrix.mulVec, Matrix.dotProduct, hentry, add_mul, ite_mul,
        zero_mul, Finset.mul_sum, Finset.sum_add_distrib, Finset.sum_ite_eq,
        Finset.mem_univ, if_true, mul_ite, mul_zero]
      calc ∑ i : Fin n, x i * (∑ j : Fin n, S (i : ℕ) (j : ℕ) * x j + c * x i)
          = ∑ i : Fin n,
              ((∑ j : Fin n, x i * (S (i : ℕ) (j : ℕ) * x j))
                + c * (x i * x i)) := by
            apply Finset.sum_congr rfl
            intro i _
            rw [mul_add, Finset.mul_sum]
            congr 1
            ring
        _ = (∑ i : Fin n, ∑ j : Fin n, x i * (S (i : ℕ) (j : ℕ) * x j))
              + ∑ i : Fin n, c * (x i * x i) := Finset.sum_add_distrib
    rw [expand]
    have hT : (0:ℝ) ≤ ∑ k : Fin n, x k * x k :=
      Finset.sum_nonneg (fun k _ => mul_self_nonneg (x k))
    have bound : ∀ i j : Fin n,
        -(|S (i : ℕ) (j : ℕ)| * (∑ k : Fin n, x k * x k))
          ≤ x i * (S (i : ℕ) (j : ℕ) * x j) := by
      intro i j
      have hxx : |x i| * |x j| ≤ ∑ k : Fin n, x k * x k := by
        have hii : x i * x i ≤ ∑ k : Fin n, x k * x k :=
          Finset.single_le_sum (fun k _ => mul_self_nonneg (x k))
            (Finset.mem_univ i)
        have hjj : x j * x j ≤ ∑ k : Fin n, x k * x k :=
          Finset.single_le_sum (fun k _ => mul_self_nonneg (x k))
            (Finset.mem_univ j)
        nlinarith [sq_nonneg (|x i| - |x j|), abs_nonneg (x i), abs_nonneg (x j),
          abs_mul_abs_self (x i), abs_mul_abs_self (x j)]
      have h1 : |x i * (S (i : ℕ) (j : ℕ) * x j)|
          ≤ |S (i : ℕ) (j : ℕ)| * (∑ k : Fin n, x k * x k) := by
        rw [abs_mul, abs_mul]
        calc |x i| * (|S (i : ℕ) (j : ℕ)| * |x j|)
            = |S (i : ℕ) (j : ℕ)| * (|x i| * |x j|) := by ring
          _ ≤ |S (i : ℕ) (j : ℕ)| * (∑ k : Fin n, x k * x k) :=
              mul_le_mul_of_nonneg_left hxx (abs_nonneg _)
      linarith [neg_abs_le (x i * (S (i : ℕ) (j : ℕ) * x j)), h1]
    have csum : c = ∑ i : Fin n, ∑ j : Fin n, |S (i : ℕ) (j : ℕ)| := by
      rw [hc, ← Fin.sum_univ_eq_sum_range
        (fun a => ∑ b ∈ Finset.range n, |S a b|) n]
      apply Finset.sum_congr rfl
      intro i _
      rw [← Fin.sum_univ_eq_sum_range (fun b => |S (i : ℕ) b|) n]
    have sumbound : -(c * ∑ k : Fin n, x k * x k)
        ≤ ∑ i : Fin n, ∑ j : Fin n, x i * (S (i : ℕ) (j : ℕ) * x j) := by
      have heq : -(c * ∑ k : Fin n, x k * x k)
          = ∑ i : Fin n, ∑ j : Fin n,
              -(|S (i : ℕ) (j : ℕ)| * (∑ k : Fin n, x k * x k)) := by
        rw [csum, Finset.sum_mul, ← Finset.sum_neg_distrib]
        apply Finset.sum_congr rfl
        intro i _
        rw [Finset.sum_mul, ← Finset.sum_neg_distrib]
      rw [heq]
      exact Finset.sum_le_sum (fun i _ => Finset.sum_le_sum (fun j _ => bound i j))
    nlinarith [sumbound]

/-- C4: whatever triangular rows `set_parameters` hands to
`_rebuild_covariance_matrix`, the rebuilt covariance matrix is symmetric and
positive semi-definite: the rebuild step checks symmetric positive
definiteness and repairs the matrix when the check fails. -/
theorem C4_covariance_validity (cov : List (List ℝ)) :
    (∀ i j, i < (_rebuild_covariance_matrix cov).length →
      j < (_rebuild_covariance_matrix cov).length →
      matGet (_rebuild_covariance_matrix cov) i j
        = matGet (_rebuild_covariance_matrix cov) j i)
    ∧ (toMatrix (_rebuild_covariance_matrix cov).length
        (_rebuild_covariance_matrix cov)).PosSemidef := by
  by_cases h : check_matrix_symmetric_positive_definite
      (symmetrizeMatrix (square_matrix cov))
  · have hR : _rebuild_covariance_matrix cov
        = symmetrizeMatrix (square_matrix cov) := by
      rw [_rebuild_covariance_matrix]
      exact if_pos h
    rw [hR]
    refine ⟨?_, h.2.posSemidef⟩
    intro i j hi hj
    rw [length_symmetrizeMatrix] at hi hj
    exact symmetrizeMatrix_symm (square_matrix cov) hi hj
  · have hR : _rebuild_covariance_matrix cov
        = make_positive_definite (symmetrizeMatrix (square_matrix cov)) := by
      rw [_rebuild_covariance_matrix]
      exact if_neg h
    rw [hR]
    refine ⟨?_, ?_⟩
    · intro i j hi hj
      rw [length_make_positive_definite] at hi hj
      exact make_positive_definite_symm _ hi hj
    · exact make_positive_definite_posSemidef_aux _ _
        (length_make_positive_definite _)

/-! ## Malformed flat mappings (C8) -/

lemma rebuild_num_rows {fd : List (String × DistSpec)} {up : UnflatParams}
    {mp : ModelParams}
    (h : _rebuild_gaussian_copula fd up = .ok mp) :
    mp.num_rows = up.num_rows := by
  unfold _rebuild_gaussian_copula at h
  split at h
  · exact absurd h (by simp)
  · split at h
    · exact absurd h (by simp)
    · split at h
      · exact absurd h (by simp)
      · cases h
        rfl

/-- C8: a malformed flat mapping — one that decodes with a missing
`covariance`, missing `univariates` or missing `num_rows` component, or
whose sequence indices are inconsistent so decoding itself fails — makes
`set_parameters` fail with a structural decode error, and the instance
state (stored model and row count) is unchanged: every failing step
precedes the first mutation. -/
theorem C8_malformed_no_partial_reconstruction (st : GCState) (p : FlatMap)
    (h : ∀ up, unflatten_dict p = .ok up →
      up.covariance = none ∨ up.univariates = none ∨ up.num_rows = none) :
    (set_parameters st p).1 = st ∧ (set_parameters st p).2.isSome = true := by
  cases hd : unflatten_dict p with
  | error e => simp [set_parameters, hd]
  | ok up =>
    rcases h up hd with hcov | hun | hnr
    · cases hu : up.univariates with
      | none => simp [set_parameters, hd, _rebuild_gaussian_copula, hu]
      | some us =>
        cases hm : exceptMapM (fun cu =>
            match lookupKey cu.1 st.field_distributions with
            | none => Except.error (Err.keyError cu.1)
            | some ty =>
              Except.ok (cu.1, expScaleStep (setKey "type" (.dist ty) cu.2))) us with
        | error e =>
          simp [set_parameters, hd, _rebuild_gaussian_copula, hu, hm]
        | ok univs' =>
          simp [set_parameters, hd, _rebuild_gaussian_copula, hu, hm, hcov]
    · simp [set_parameters, hd, _rebuild_gaussian_copula, hun]
    · cases hr : _rebuild_gaussian_copula st.field_distributions up with
      | error e => simp [set_parameters, hd, hr]
      | ok mp =>
        have : mp.num_rows = none := (rebuild_num_rows hr).trans hnr
        simp [set_parameters, hd, hr, this]

/-- C8 witness: a flat mapping carrying a covariance entry and a univariate
parameter but no `num_rows` key; `set_parameters` fails and leaves the
state untouched. -/
theorem C8_malformed_no_partial_reconstruction_witness :
    (∀ up, unflatten_dict
        [(FlatKey.cov 0 0, UnivVal.num (1:ℝ)),
         (FlatKey.univ "a" "loc", UnivVal.num (0:ℝ))] = .ok up →
      up.covariance = none ∨ up.univariates = none ∨ up.num_rows = none)
    ∧ ((set_parameters
          { field_distributions := [("a", DistSpec.inst DistObj.gaussian)]
            default_distribution := _DEFAULT_DISTRIBUTION
            categorical_transformer := "one_hot_encoding"
            num_rows := 42
            model := none }
          [(FlatKey.cov 0 0, UnivVal.num (1:ℝ)),
           (FlatKey.univ "a" "loc", UnivVal.num (0:ℝ))]).1
        = { field_distributions := [("a", DistSpec.inst DistObj.gaussian)]
            default_distribution := _DEFAULT_DISTRIBUTION
            categorical_transformer := "one_hot_encoding"
            num_rows := 42
            model := none }
      ∧ (set_parameters
          { field_distributions := [("a", DistSpec.inst DistObj.gaussian)]
            default_distribution := _DEFAULT_DISTRIBUTION
            categorical_transformer := "one_hot_encoding"
            num_rows := 42
            model := none }
          [(FlatKey.cov 0 0, UnivVal.num (1:ℝ)),
           (FlatKey.univ "a" "loc", UnivVal.num (0:ℝ))]).2.isSome = true) := by
  have hmal : ∀ up, unflatten_dict
      [(FlatKey.cov 0 0, UnivVal.num (1:ℝ)),
       (FlatKey.univ "a" "loc", UnivVal.num (0:ℝ))] = .ok up →
      up.covariance = none ∨ up.univariates = none ∨ up.num_rows = none := by
    intro up hup
    have hX : unflatten_dict
        [(FlatKey.cov 0 0, UnivVal.num (1:ℝ)),
         (FlatKey.univ "a" "loc", UnivVal.num (0:ℝ))]
        = Except.ok { covariance := some [[(1:ℝ)]]
                      univariates := some [("a", [("loc", UnivVal.num (0:ℝ))])]
                      num_rows := none } := rfl
    rw [hX] at hup
    cases hup
    exact Or.inr (Or.inr rfl)
  exact ⟨hmal, C8_malformed_no_partial_reconstruction _ _ hmal⟩

/-! ## Row-count coercion (C7) -/

lemma unflatten_num_rows {p : FlatMap} {up : UnflatParams}
    (h : unflatten_dict p = .ok up) : up.num_rows = findNumRows p := by
  unfold unflatten_dict at h
  split at h
  · exact absurd h (by simp)
  · cases h
    rfl

/-- C7 counterexample: the claim says a missing row count becomes `0`; on a
flat mapping with covariance and univariate entries but no `num_rows` key,
`set_parameters` instead raises `KeyError('num_rows')` (the `pop`) and the
stored row count keeps its prior value `42`. -/
theorem C7_missing_num_rows_counterexample :
    (set_parameters
        { field_distributions := [("a", DistSpec.inst DistObj.gaussian)]
          default_distribution := _DEFAULT_DISTRIBUTION
          categorical_transformer := "one_hot_encoding"
          num_rows := 42
          model := none }
        [(FlatKey.cov 0 0, UnivVal.num (1:ℝ)),
         (FlatKey.univ "a" "loc", UnivVal.num (0:ℝ))]).2
      = some (Err.keyError "num_rows")
    ∧ (set_parameters
        { field_distributions := [("a", DistSpec.inst DistObj.gaussian)]
          default_distribution := _DEFAULT_DISTRIBUTION
          categorical_transformer := "one_hot_encoding"
          num_rows := 42
          model := none }
        [(FlatKey.cov 0 0, UnivVal.num (1:ℝ)),
         (FlatKey.univ "a" "loc", UnivVal.num (0:ℝ))]).1.num_rows = 42 :=
  ⟨rfl, rfl⟩

/-- C7 (amended): on every call that `set_parameters` completes without
error, the restored row count comes from the mapping's `num_rows` entry,
coerced by `0 if pd.isnull(num_rows) else max(0, int(round(num_rows)))`
(numeric values rounded half-to-even and clamped to at least 0, `NaN`
becoming 0); a mapping with a missing row count is instead rejected with a
structural decode error and the instance state is unchanged. -/
theorem C7_row_count_coercion (st : GCState) (p : FlatMap) :
    ((set_parameters st p).2 = none →
      ∃ v, findNumRows p = some v
        ∧ (∀ x, v = UnivVal.num x →
            (set_parameters st p).1.num_rows = (max 0 (pyRound x)).toNat)
        ∧ (v = UnivVal.nan → (set_parameters st p).1.num_rows = 0))
    ∧ (findNumRows p = none →
        (set_parameters st p).1 = st ∧ (set_parameters st p).2.isSome = true) := by
  constructor
  · intro hs
    cases hd : unflatten_dict p with
    | error e =>
      simp only [set_parameters, hd] at hs
      exact absurd hs (by simp)
    | ok up =>
      cases hr : _rebuild_gaussian_copula st.field_distributions up with
      | error e =>
        simp only [set_parameters, hd, hr] at hs
        exact absurd hs (by simp)
      | ok mp =>
        have hnr : mp.num_rows = findNumRows p :=
          (rebuild_num_rows hr).trans (unflatten_num_rows hd)
        cases hv : mp.num_rows with
        | none =>
          simp only [set_parameters, hd, hr, hv] at hs
          exact absurd hs (by simp)
        | some v =>
          refine ⟨v, hv ▸ hnr.symm, ?_, ?_⟩
          · intro x hx
            subst hx
            simp [set_parameters, hd, hr, hv]
          · intro hx
            subst hx
            simp [set_parameters, hd, hr, hv]
  · intro hn
    cases hd : unflatten_dict p with
    | error e => simp [set_parameters, hd]
    | ok up =>
      cases hr : _rebuild_gaussian_copula st.field_distributions up with
      | error e => simp [set_parameters, hd, hr]
      | ok mp =>
        have hv : mp.num_rows = none :=
          ((rebuild_num_rows hr).trans (unflatten_num_rows hd)).trans hn
        simp [set_parameters, hd, hr, hv]

/-- C7 witness: a complete mapping with `num_rows = 7/2` succeeds with the
coerced count; the same mapping without `num_rows` fails leaving the prior
state. -/
theorem C7_row_count_coercion_witness :
    ((set_parameters
          { field_distributions := [("a", DistSpec.inst DistObj.gaussian)]
            default_distribution := _DEFAULT_DISTRIBUTION
            categorical_transformer := "one_hot_encoding"
            num_rows := 42
            model := none }
          [(FlatKey.cov 0 0, UnivVal.num (1:ℝ)),
           (FlatKey.univ "a" "loc", UnivVal.num (0:ℝ)),
           (FlatKey.numRows, UnivVal.num ((7:ℝ)/2))]).2 = none
      ∧ ∃ v, findNumRows
          [(FlatKey.cov 0 0, UnivVal.num (1:ℝ)),
           (FlatKey.univ "a" "loc", UnivVal.num (0:ℝ)),
           (FlatKey.numRows, UnivVal.num ((7:ℝ)/2))] = some v
        ∧ (∀ x, v = UnivVal.num x →
            (set_parameters
              { field_distributions := [("a", DistSpec.inst DistObj.gaussian)]
                default_distribution := _DEFAULT_DISTRIBUTION
                categorical_transformer := "one_hot_encoding"
                num_rows := 42
                model := none }
              [(FlatKey.cov 0 0, UnivVal.num (1:ℝ)),
               (FlatKey.univ "a" "loc", UnivVal.num (0:ℝ)),
               (FlatKey.numRows, UnivVal.num ((7:ℝ)/2))]).1.num_rows
              = (max 0 (pyRound x)).toNat)
        ∧ (v = UnivVal.nan →
            (set_parameters
              { field_distributions := [("a", DistSpec.inst DistObj.gaussian)]
                default_distribution := _DEFAULT_DISTRIBUTION
                categorical_transformer := "one_hot_encoding"
                num_rows := 42
                model := none }
              [(FlatKey.cov 0 0, UnivVal.num (1:ℝ)),
               (FlatKey.univ "a" "loc", UnivVal.num (0:ℝ)),
               (FlatKey.numRows, UnivVal.num ((7:ℝ)/2))]).1.num_rows = 0))
    ∧ (findNumRows
          [(FlatKey.cov 0 0, UnivVal.num (1:ℝ)),
           (FlatKey.univ "a" "loc", UnivVal.num (0:ℝ))] = none
        ∧ ((set_parameters
              { field_distributions := [("a", DistSpec.inst DistObj.gaussian)]
                default_distribution := _DEFAULT_DISTRIBUTION
                categorical_transformer := "one_hot_encoding"
                num_rows := 42
                model := none }
              [(FlatKey.cov 0 0, UnivVal.num (1:ℝ)),
               (FlatKey.univ "a" "loc", UnivVal.num (0:ℝ))]).1
            = { field_distributions := [("a", DistSpec.inst DistObj.gaussian)]
                default_distribution := _DEFAULT_DISTRIBUTION
                categorical_transformer := "one_hot_encoding"
                num_rows := 42
                model := none }
          ∧ (set_parameters
              { field_distributions := [("a", DistSpec.inst DistObj.gaussian)]
                default_distribution := _DEFAULT_DISTRIBUTION
                categorical_transformer := "one_hot_encoding"
                num_rows := 42
                model := none }
              [(FlatKey.cov 0 0, UnivVal.num (1:ℝ)),
               (FlatKey.univ "a" "loc", UnivVal.num (0:ℝ))]).2.isSome = true)) :=
  ⟨⟨rfl, (C7_row_count_coercion _ _).1 rfl⟩,
   ⟨rfl, (C7_row_count_coercion _ _).2 rfl⟩⟩

/-! ## Family types on the `set_parameters` path (C10) -/

lemma lookupKey_expScaleStep_ne {k : String} (hk : k ≠ "scale") (d : UnivDict) :
    lookupKey k (expScaleStep d) = lookupKey k d := by
  unfold expScaleStep
  cases h : lookupKey "scale" d with
  | none => rfl
  | some v => exact lookupKey_setKey_ne hk _ d

lemma rebuildUnivs_ok (fd : List (String × DistSpec)) :
    ∀ us : List (String × UnivDict),
    (∀ cu ∈ us, (lookupKey cu.1 fd).isSome = true) →
    ∃ l, exceptMapM (fun cu =>
        match lookupKey cu.1 fd with
        | none => Except.error (Err.keyError cu.1)
        | some ty =>
          Except.ok (cu.1, expScaleStep (setKey "type" (UnivVal.dist ty) cu.2)))
        us = .ok l
      ∧ l.map (fun cu => cu.1) = us.map (fun cu => cu.1)
      ∧ ∀ cu' ∈ l, ∃ ty, lookupKey cu'.1 fd = some ty
          ∧ lookupKey "type" cu'.2 = some (UnivVal.dist ty) := by
  intro us
  induction us with
  | nil => exact fun _ => ⟨[], rfl, rfl, by simp⟩
  | cons cu rest ih =>
    intro h
    obtain ⟨ty, hty⟩ :=
      Option.isSome_iff_exists.mp (h cu (List.mem_cons_self cu rest))
    obtain ⟨l, hl, hmap, hall⟩ :=
      ih (fun c hc => h c (List.mem_cons_of_mem _ hc))
    refine ⟨(cu.1, expScaleStep (setKey "type" (UnivVal.dist ty) cu.2)) :: l,
      ?_, ?_, ?_⟩
    · simp [exceptMapM, hty, hl, Except.bind, Bind.bind, Pure.pure, Except.pure]
    · simp [hmap]
    · intro cu' hc'
      rcases List.mem_cons.mp hc' with heq | hmem
      · subst heq
        refine ⟨ty, hty, ?_⟩
        rw [lookupKey_expScaleStep_ne (by decide), lookupKey_setKey_self]
      · exact hall cu' hmem

lemma rebuildUnivs_error (fd : List (String × DistSpec)) :
    ∀ us : List (String × UnivDict),
    (∃ cu ∈ us, lookupKey cu.1 fd = none) →
    ∃ c, exceptMapM (fun cu =>
        match lookupKey cu.1 fd with
        | none => Except.error (Err.keyError cu.1)
        | some ty =>
          Except.ok (cu.1, expScaleStep (setKey "type" (UnivVal.dist ty) cu.2)))
        us = .error (Err.keyError c)
      ∧ lookupKey c fd = none := by
  intro us
  induction us with
  | nil => rintro ⟨cu, hmem, _⟩; exact absurd hmem (by simp)
  | cons cu rest ih =>
    rintro ⟨cu', hmem, hnone⟩
    cases hlk : lookupKey cu.1 fd with
    | none =>
      exact ⟨cu.1, by simp [exceptMapM, hlk, Except.bind, Bind.bind], hlk⟩
    | some ty =>
      have hrest : ∃ c ∈ rest, lookupKey c.1 fd = none := by
        rcases List.mem_cons.mp hmem with heq | hmem'
        · subst heq
          exact absurd hnone (by simp [hlk])
        · exact ⟨cu', hmem', hnone⟩
      obtain ⟨c, hc, hcn⟩ := ih hrest
      exact ⟨c, by simp [exceptMapM, hlk, hc, Except.bind, Bind.bind], hcn⟩

/-- C10: `_rebuild_gaussian_copula` (called by `set_parameters` with the
instance's current `_field_distributions`) assigns every reconstructed
univariate's `type` from the field-distribution mapping for its column —
regardless of any type information in the supplied parameters — and fails
with a `KeyError` naming a column that has no field-distribution entry. -/
theorem C10_types_from_field_distributions (fd : List (String × DistSpec))
    (univs : List (String × UnivDict)) (cov : List (List ℝ))
    (nr : Option UnivVal) :
    ((∀ cu ∈ univs, (lookupKey cu.1 fd).isSome = true) →
      ∃ mp, _rebuild_gaussian_copula fd
          { covariance := some cov, univariates := some univs, num_rows := nr }
          = .ok mp
        ∧ mp.columns = univs.map (fun cu => cu.1)
        ∧ ∀ cu' ∈ mp.univariates, ∃ ty, lookupKey cu'.1 fd = some ty
            ∧ lookupKey "type" cu'.2 = some (UnivVal.dist ty))
    ∧ ((∃ cu ∈ univs, lookupKey cu.1 fd = none) →
      ∃ c, _rebuild_gaussian_copula fd
          { covariance := some cov, univariates := some univs, num_rows := nr }
          = .error (Err.keyError c)
        ∧ lookupKey c fd = none) := by
  constructor
  · intro h
    obtain ⟨l, hl, hmap, hall⟩ := rebuildUnivs_ok fd univs h
    refine ⟨{ columns := l.map (fun cu => cu.1)
              univariates := l
              covariance := _rebuild_covariance_matrix cov
              num_rows := nr }, ?_, hmap, hall⟩
    simp [_rebuild_gaussian_copula, hl]
  · intro h
    obtain ⟨c, hc, hcn⟩ := rebuildUnivs_error fd univs h
    exact ⟨c, by simp [_rebuild_gaussian_copula, hc], hcn⟩

/-- C10 witness: with `field_distributions = {'a': gaussian}` the rebuilt
univariate for column `a` gets type `gaussian`; with an empty mapping the
rebuild fails with `KeyError('a')`. -/
theorem C10_types_from_field_distributions_witness :
    ((∀ cu ∈ [("a", [("loc", UnivVal.num (0:ℝ))])],
        (lookupKey cu.1 [("a", DistSpec.inst DistObj.gaussian)]).isSome = true)
      ∧ ∃ mp, _rebuild_gaussian_copula [("a", DistSpec.inst DistObj.gaussian)]
          { covariance := some [[(1:ℝ)]]
            univariates := some [("a", [("loc", UnivVal.num (0:ℝ))])]
            num_rows := some (UnivVal.num (3:ℝ)) }
          = .ok mp
        ∧ mp.columns
            = [("a", [("loc", UnivVal.num (0:ℝ))])].map (fun cu => cu.1)
        ∧ ∀ cu' ∈ mp.univariates, ∃ ty,
            lookupKey cu'.1 [("a", DistSpec.inst DistObj.gaussian)] = some ty
            ∧ lookupKey "type" cu'.2 = some (UnivVal.dist ty))
    ∧ ((∃ cu ∈ [("a", [("loc", UnivVal.num (0:ℝ))])],
        lookupKey cu.1 ([] : List (String × DistSpec)) = none)
      ∧ ∃ c, _rebuild_gaussian_copula ([] : List (String × DistSpec))
          { covariance := some [[(1:ℝ)]]
            univariates := some [("a", [("loc", UnivVal.num (0:ℝ))])]
            num_rows := some (UnivVal.num (3:ℝ)) }
          = .error (Err.keyError c)
        ∧ lookupKey c ([] : List (String × DistSpec)) = none) := by
  have h1 : ∀ cu ∈ [("a", [("loc", UnivVal.num (0:ℝ))])],
      (lookupKey cu.1 [("a", DistSpec.inst DistObj.gaussian)]).isSome = true := by
    intro cu hcu
    rw [List.mem_singleton] at hcu
    subst hcu
    rfl
  have h2 : ∃ cu ∈ [("a", [("loc", UnivVal.num (0:ℝ))])],
      lookupKey cu.1 ([] : List (String × DistSpec)) = none :=
    ⟨("a", [("loc", UnivVal.num (0:ℝ))]), List.mem_singleton.mpr rfl, rfl⟩
  exact ⟨⟨h1, (C10_types_from_field_distributions _ _ [[(1:ℝ)]]
      (some (UnivVal.num (3:ℝ)))).1 h1⟩,
    ⟨h2, (C10_types_from_field_distributions _ _ [[(1:ℝ)]]
      (some (UnivVal.num (3:ℝ)))).2 h2⟩⟩

/-! ## Round trip (C1): association-list algebra -/

lemma exceptMapM_ok_of_all {ε α β : Type} (f : α → Except ε β) (g : α → β)
    (l : List α) (h : ∀ a ∈ l, f a = .ok (g a)) :
    exceptMapM f l = .ok (l.map g) := by
  induction l with
  | nil => rfl
  | cons a rest ih =>
    simp [exceptMapM, h a (List.mem_cons_self a rest),
      ih (fun b hb => h b (List.mem_cons_of_mem _ hb)),
      Except.bind, Bind.bind, Pure.pure, Except.pure]

lemma lookupKey_isSome_eq_any {α : Type} (k : String) (d : List (String × α)) :
    (lookupKey k d).isSome = d.any (fun kv => kv.1 = k) := by
  induction d with
  | nil => rfl
  | cons kv rest ih =>
    by_cases hk : kv.1 = k
    · simp [lookupKey_cons, hk]
    · simp [lookupKey_cons, hk, ih]

lemma setKey_cons_ne {α : Type} {a : String × α} {k : String} (hk : a.1 ≠ k)
    (v : α) (d : List (String × α)) :
    setKey k v (a :: d) = a :: setKey k v d := by
  unfold setKey
  by_cases h : d.any (fun kv => kv.1 = k)
  · rw [if_pos h, if_pos (by simp [h]), List.map_cons, if_neg hk]
  · rw [if_neg h, if_neg ?_]
    · rfl
    · simp only [List.any_cons, Bool.or_eq_true, decide_eq_true_eq]
      rintro (h1 | h2)
      · exact hk h1
      · exact h h2

lemma keys_setKey_of_any {α : Type} {k : String} {d : List (String × α)}
    (h : d.any (fun kv => kv.1 = k) = true) (v : α) :
    (setKey k v d).map Prod.fst = d.map Prod.fst := by
  unfold setKey
  rw [if_pos h, List.map_map]
  apply List.map_congr_left
  intro kv _
  by_cases hk : kv.1 = k
  · simp [hk]
  · simp [hk]

lemma setKey_map_of_any {α : Type} {k : String} {d : List (String × α)}
    (h : d.any (fun kv => kv.1 = k) = true) (v : α) :
    setKey k v d = d.map (fun kv => if kv.1 = k then (k, v) else kv) := by
  unfold setKey
  rw [if_pos h]

lemma setKey_append_of_not_any {α : Type} {k : String} {d : List (String × α)}
    (h : d.any (fun kv => kv.1 = k) = false) (v : α) :
    setKey k v d = d ++ [(k, v)] := by
  unfold setKey
  rw [if_neg (by simp [h])]

lemma setKey_any_self {α : Type} (k : String) (v : α) (d : List (String × α)) :
    (setKey k v d).any (fun kv => kv.1 = k) = true := by
  rw [← lookupKey_isSome_eq_any, lookupKey_setKey_self]
  rfl

lemma setKey_setKey {α : Type} (k : String) (v w : α) (d : List (String × α)) :
    setKey k v (setKey k w d) = setKey k v d := by
  cases h : d.any (fun kv => kv.1 = k) with
  | true =>
    rw [setKey_map_of_any (setKey_any_self k w d) v, setKey_map_of_any h w,
      setKey_map_of_any h v, List.map_map]
    apply List.map_congr_left
    intro kv _
    by_cases hk : kv.1 = k
    · simp [hk]
    · simp [hk]
  | false =>
    have hne : ∀ kv ∈ d, kv.1 ≠ k := by
      intro kv hkv hc
      have : d.any (fun kv => kv.1 = k) = true :=
        List.any_eq_true.mpr ⟨kv, hkv, by simpa using hc⟩
      rw [this] at h
      cases h
    rw [setKey_map_of_any (setKey_any_self k w d) v,
      setKey_append_of_not_any h w, setKey_append_of_not_any h v,
      List.map_append]
    have hid : d.map (fun kv => if kv.1 = k then (k, v) else kv) = d := by
      conv_rhs => rw [← List.map_id d]
      apply List.map_congr_left
      intro kv hkv
      simp [hne kv hkv]
    rw [hid]
    simp

lemma removeKey_of_forall_ne {α : Type} {k : String} {d : List (String × α)}
    (h : ∀ kv ∈ d, kv.1 ≠ k) : removeKey k d = d := by
  unfold removeKey
  apply List.filter_eq_self.mpr
  intro kv hkv
  simpa using h kv hkv

lemma removeKey_append {α : Type} (k : String) (d₁ d₂ : List (String × α)) :
    removeKey k (d₁ ++ d₂) = removeKey k d₁ ++ removeKey k d₂ :=
  List.filter_append _ _

/-- The dict that survives flattening: the entries whose keys are not in
`IGNORED_DICT_KEYS` (what `unflatten_dict` recovers for one univariate). -/
def filteredDict (d : UnivDict) : UnivDict :=
  d.filterMap (fun kv => if kv.1 ∈ IGNORED_DICT_KEYS then none else some kv)

lemma filteredDict_of_no_ignored {d : UnivDict}
    (h : ∀ kv ∈ d, kv.1 ∉ IGNORED_DICT_KEYS) : filteredDict d = d := by
  induction d with
  | nil => rfl
  | cons kv rest ih =>
    unfold filteredDict at ih ⊢
    rw [List.filterMap_cons, if_neg (h kv (List.mem_cons_self kv rest))]
    rw [ih (fun kv' h' => h kv' (List.mem_cons_of_mem _ h'))]

lemma filteredDict_cons_ignored {a : String × UnivVal} (d : UnivDict)
    (h : a.1 ∈ IGNORED_DICT_KEYS) :
    filteredDict (a :: d) = filteredDict d := by
  unfold filteredDict
  rw [List.filterMap_cons, if_pos h]

lemma setKey_eq_self_of_lookup {α : Type} {k : String} {v : α}
    {d : List (String × α)} (hnd : (d.map Prod.fst).Nodup)
    (h : lookupKey k d = some v) : setKey k v d = d := by
  induction d with
  | nil => cases h
  | cons a rest ih =>
    rw [List.map_cons, List.nodup_cons] at hnd
    by_cases hk : a.1 = k
    · rw [lookupKey_cons, if_pos hk] at h
      cases h
      have hany : (a :: rest).any (fun kv => kv.1 = k) = true := by simp [hk]
      rw [setKey_map_of_any hany, List.map_cons, if_pos hk]
      have hrest : rest.map (fun kv => if kv.1 = k then (k, a.2) else kv)
          = rest := by
        conv_rhs => rw [← List.map_id rest]
        apply List.map_congr_left
        intro kv hkv
        have : kv.1 ≠ k := by
          intro hc
          have hmem : kv.1 ∈ List.map Prod.fst rest :=
            List.mem_map.mpr ⟨kv, hkv, rfl⟩
          rw [hc, ← hk] at hmem
          exact hnd.1 hmem
        simp [this]
      rw [hrest]
      congr 1
      rw [← hk]
    · rw [lookupKey_cons, if_neg hk] at h
      rw [setKey_cons_ne hk, ih hnd.2 h]

lemma setKey_append_left {α : Type} {k : String} {d₁ : List (String × α)}
    (h₁ : d₁.any (fun kv => kv.1 = k) = true) {d₂ : List (String × α)}
    (h₂ : ∀ kv ∈ d₂, kv.1 ≠ k) (v : α) :
    setKey k v (d₁ ++ d₂) = setKey k v d₁ ++ d₂ := by
  have hany : (d₁ ++ d₂).any (fun kv => kv.1 = k) = true := by
    rw [List.any_append, h₁]
    rfl
  rw [setKey_map_of_any hany, setKey_map_of_any h₁, List.map_append]
  congr 1
  conv_rhs => rw [← List.map_id d₂]
  apply List.map_congr_left
  intro kv hkv
  simp [h₂ kv hkv]

lemma mem_keys_setKey {α : Type} {k : String} {v : α} {d : List (String × α)}
    (hany : d.any (fun kv => kv.1 = k) = true) {kv : String × α}
    (h : kv ∈ setKey k v d) : kv.1 ∈ d.map Prod.fst := by
  have : kv.1 ∈ (setKey k v d).map Prod.fst := List.mem_map.mpr ⟨kv, h, rfl⟩
  rwa [keys_setKey_of_any hany] at this

/-- One univariate's `get_parameters` → flatten → unflatten →
`_rebuild_gaussian_copula` journey: with distinct, non-ignored keys and a
positive (or absent) `scale`, the rebuilt dict is exactly the original
parameters plus the freshly assigned `type`. -/
lemma roundTripUniv (u : UnivObj) (ty : DistSpec)
    (hnd : (u.params.map Prod.fst).Nodup)
    (hig : ∀ kv ∈ u.params, kv.1 ∉ IGNORED_DICT_KEYS)
    (hsc : lookupKey "scale" u.params = none
        ∨ ∃ s, lookupKey "scale" u.params = some (UnivVal.num s) ∧ 0 < s) :
    expScaleStep (setKey "type" (UnivVal.dist ty)
        (filteredDict (logScaleStep u.to_dict)))
      = u.params ++ [("type", UnivVal.dist ty)] := by
  have htype_params : ∀ kv ∈ u.params, kv.1 ≠ "type" := by
    intro kv hkv hc
    exact hig kv hkv (by rw [hc]; simp [IGNORED_DICT_KEYS])
  have hlook_td : lookupKey "scale" u.to_dict = lookupKey "scale" u.params := by
    rw [UnivObj.to_dict, lookupKey_cons,
      if_neg (show ¬("type", UnivVal.dist u.fam).1 = "scale" by simp)]
  rcases hsc with hnone | ⟨s, hs, hspos⟩
  · -- no scale parameter: the scale steps are the identity
    have hENC : filteredDict (logScaleStep u.to_dict) = u.params := by
      rw [logScaleStep, hlook_td, hnone, UnivObj.to_dict,
        filteredDict_cons_ignored _ (by simp [IGNORED_DICT_KEYS]),
        filteredDict_of_no_ignored hig]
    rw [hENC]
    have hnotype : u.params.any (fun kv => kv.1 = "type") = false := by
      cases h : u.params.any (fun kv => kv.1 = "type") with
      | false => rfl
      | true =>
        obtain ⟨kv, hkv, hk⟩ := List.any_eq_true.mp h
        exact absurd (by simpa using hk) (htype_params kv hkv)
    rw [setKey_append_of_not_any hnotype]
    rw [expScaleStep, lookupKey_append, hnone]
    rfl
  · -- positive scale: log then exp restores it
    have hany_scale : u.params.any (fun kv => kv.1 = "scale") = true := by
      rw [← lookupKey_isSome_eq_any, hs]
      rfl
    have hlog : logScaleStep u.to_dict
        = ("type", UnivVal.dist u.fam)
            :: setKey "scale" (UnivVal.num (Real.log s)) u.params := by
      rw [logScaleStep, hlook_td, hs]
      show setKey "scale" (logVal (UnivVal.num s)) u.to_dict = _
      rw [UnivObj.to_dict,
        setKey_cons_ne (show ("type", UnivVal.dist u.fam).1 ≠ "scale" by simp)]
      congr 2
      rw [logVal, if_neg (ne_of_gt hspos)]
    have hENCkeys : (setKey "scale" (UnivVal.num (Real.log s)) u.params).map
        Prod.fst = u.params.map Prod.fst := keys_setKey_of_any hany_scale _
    have hENCig : ∀ kv ∈ setKey "scale" (UnivVal.num (Real.log s)) u.params,
        kv.1 ∉ IGNORED_DICT_KEYS := by
      intro kv hkv
      have : kv.1 ∈ u.params.map Prod.fst := mem_keys_setKey hany_scale hkv
      obtain ⟨kv', hkv', hk⟩ := List.mem_map.mp this
      exact hk ▸ hig kv' hkv'
    have hENC : filteredDict (logScaleStep u.to_dict)
        = setKey "scale" (UnivVal.num (Real.log s)) u.params := by
      rw [hlog, filteredDict_cons_ignored _ (by simp [IGNORED_DICT_KEYS]),
        filteredDict_of_no_ignored hENCig]
    rw [hENC]
    have hnotype : (setKey "scale" (UnivVal.num (Real.log s)) u.params).any
        (fun kv => kv.1 = "type") = false := by
      cases h : (setKey "scale" (UnivVal.num (Real.log s)) u.params).any
          (fun kv => kv.1 = "type") with
      | false => rfl
      | true =>
        obtain ⟨kv, hkv, hk⟩ := List.any_eq_true.mp h
        have : kv.1 ∈ u.params.map Prod.fst := mem_keys_setKey hany_scale hkv
        obtain ⟨kv', hkv', hk'⟩ := List.mem_map.mp this
        exact absurd (by rw [hk']; simpa using hk)
          (fun hc => htype_params kv' hkv' hc)
    rw [setKey_append_of_not_any hnotype]
    rw [expScaleStep, lookupKey_append, lookupKey_setKey_self]
    show setKey "scale" (expVal (UnivVal.num (Real.log s))) _ = _
    rw [show expVal (UnivVal.num (Real.log s))
        = UnivVal.num s from by rw [expVal, Real.exp_log hspos]]
    rw [setKey_append_left (setKey_any_self _ _ _)
      (by intro kv hkv; rw [List.mem_singleton] at hkv; subst hkv; simp)]
    rw [setKey_setKey, setKey_eq_self_of_lookup hnd hs]

/-! ## Round trip (C1): decoding what `get_parameters` flattened -/

lemma filterMap_flatMap {α β γ : Type} (l : List α) (g : α → List β)
    (f : β → Option γ) :
    (l.flatMap g).filterMap f = l.flatMap (fun a => (g a).filterMap f) := by
  induction l with
  | nil => rfl
  | cons a rest ih => simp [ih]

lemma flatMap_eq_nil_of_forall {α β : Type} {l : List α} {f : α → List β}
    (h : ∀ a ∈ l, f a = []) : l.flatMap f = [] := by
  induction l with
  | nil => rfl
  | cons a rest ih =>
    simp [h a (List.mem_cons_self a rest),
      ih (fun b hb => h b (List.mem_cons_of_mem _ hb))]

/-- The row-indexed entries that the covariance block of `flattenParams`
contributes. -/
def covEntriesOf (t : List (List ℝ)) : List (ℕ × ℕ × ℝ) :=
  t.enum.flatMap (fun ir => ir.2.enum.map (fun jv => (ir.1, jv.1, jv.2)))

lemma covEntries_flattenParams (t : List (List ℝ))
    (univs : List (String × UnivDict)) (n : ℝ) :
    (flattenParams t univs n).filterMap (fun kv =>
      match kv.1 with
      | .cov i j => some (i, j, kv.2.toReal)
      | _ => none) = covEntriesOf t := by
  unfold flattenParams
  rw [List.filterMap_append, List.filterMap_append]
  have hB : (univs.flatMap (fun cu =>
      cu.2.filterMap (fun kv =>
        if kv.1 ∈ IGNORED_DICT_KEYS then none
        else some (FlatKey.univ cu.1 kv.1, kv.2)))).filterMap (fun kv =>
      match kv.1 with
      | FlatKey.cov i j => some (i, j, kv.2.toReal)
      | _ => none) = [] := by
    apply List.filterMap_eq_nil_iff.mpr
    intro kv hkv
    obtain ⟨cu, _, hmem⟩ := List.mem_flatMap.mp hkv
    obtain ⟨kv', _, hval⟩ := List.mem_filterMap.mp hmem
    by_cases hig : kv'.1 ∈ IGNORED_DICT_KEYS
    · rw [if_pos hig] at hval
      cases hval
    · rw [if_neg hig] at hval
      cases hval
      rfl
  have hC : ([(FlatKey.numRows, UnivVal.num n)] : FlatMap).filterMap (fun kv =>
      match kv.1 with
      | FlatKey.cov i j => some (i, j, kv.2.toReal)
      | _ => none) = [] := rfl
  rw [hB, hC, List.append_nil, List.append_nil]
  rw [filterMap_flatMap]
  unfold covEntriesOf
  have hfun : (fun (ir : ℕ × List ℝ) =>
      (ir.2.enum.map (fun jv =>
        ((FlatKey.cov ir.1 jv.1 : FlatKey), UnivVal.num jv.2))).filterMap
        (fun kv =>
          match kv.1 with
          | FlatKey.cov i j => some (i, j, kv.2.toReal)
          | _ => none))
      = fun (ir : ℕ × List ℝ) => ir.2.enum.map (fun jv => (ir.1, jv.1, jv.2)) := by
    funext ir
    rw [List.filterMap_map]
    exact congrFun (List.filterMap_eq_map (fun (jv : ℕ × ℝ) => (ir.1, jv.1, jv.2))) _
  rw [hfun]

lemma enum_flatMap_select {γ : Type} (g : List ℝ → List γ) :
    ∀ (t : List (List ℝ)) (i : ℕ),
      t.enum.flatMap (fun ir => if ir.1 = i then g ir.2 else [])
        = ((t[i]?).map g).getD [] := by
  intro t
  induction t with
  | nil => intro i; rfl
  | cons a as ih =>
    intro i
    rw [List.enum_cons', List.flatMap_cons, List.flatMap_map]
    cases i with
    | zero =>
      rw [if_pos rfl]
      have hz : (as.enum.flatMap fun p =>
          if (Prod.map (fun x => x + 1) id p).1 = 0 then
            g (Prod.map (fun x => x + 1) id p).2
          else []) = [] := by
        apply flatMap_eq_nil_of_forall
        intro p _
        simp [Prod.map]
      rw [hz, List.append_nil]
      simp
    | succ j =>
      rw [if_neg (by omega), List.nil_append]
      have hfun : (fun (p : ℕ × List ℝ) =>
          if (Prod.map (fun x => x + 1) id p).1 = j + 1 then
            g (Prod.map (fun x => x + 1) id p).2
          else [])
          = fun (ir : ℕ × List ℝ) => if ir.1 = j then g ir.2 else [] := by
        funext ir
        simp [Prod.map]
      rw [hfun, ih j, List.getElem?_cons_succ]

lemma covEntries_row (t : List (List ℝ)) (i : ℕ) :
    (covEntriesOf t).filterMap (fun e => if e.1 = i then some e.2 else none)
      = ((t[i]?).map List.enum).getD [] := by
  unfold covEntriesOf
  rw [filterMap_flatMap]
  have hfun : (fun (ir : ℕ × List ℝ) =>
      (ir.2.enum.map (fun jv => (ir.1, jv.1, jv.2))).filterMap
        (fun e => if e.1 = i then some e.2 else none))
      = fun (ir : ℕ × List ℝ) => if ir.1 = i then ir.2.enum else [] := by
    funext ir
    rw [List.filterMap_map]
    by_cases hir : ir.1 = i
    · rw [if_pos hir]
      have : ((fun (e : ℕ × ℕ × ℝ) => if e.1 = i then some e.2 else none)
          ∘ fun (jv : ℕ × ℝ) => (ir.1, jv.1, jv.2))
          = fun (jv : ℕ × ℝ) => some jv := by
        funext jv
        simp [Function.comp, hir]
      rw [this]
      exact congrFun (List.filterMap_eq_map (fun (jv : ℕ × ℝ) => jv)) _
        |>.trans (List.map_id _)
    · rw [if_neg hir]
      apply List.filterMap_eq_nil_iff.mpr
      intro jv _
      simp [Function.comp, hir]
  rw [hfun, enum_flatMap_select]

lemma decodeCovRow_covEntries (t : List (List ℝ)) {i : ℕ} (hi : i < t.length)
    (hne : t.getD i [] ≠ []) :
    decodeCovRow (covEntriesOf t) i = .ok (t.getD i []) := by
  have hrow : (covEntriesOf t).filterMap
      (fun e => if e.1 = i then some e.2 else none) = (t.getD i []).enum := by
    rw [covEntries_row, List.getD_eq_getElem?_getD, List.getElem?_eq_getElem hi]
    rfl
  have hEmpty : ((t.getD i []).enum).isEmpty = false := by
    cases h : ((t.getD i []).enum).isEmpty with
    | false => rfl
    | true =>
      have := List.isEmpty_iff.mp h
      rw [List.enum_eq_nil] at this
      exact absurd this hne
  simp only [decodeCovRow]
  rw [hrow, hEmpty]
  rw [if_neg (by simp), List.enum_map_fst, List.enum_length, if_pos rfl,
    List.enum_map_snd]

lemma foldr_max_le (E : List (ℕ × ℕ × ℝ)) (N : ℕ)
    (h : ∀ e ∈ E, e.1 + 1 ≤ N) :
    E.foldr (fun e a => max (e.1 + 1) a) 0 ≤ N := by
  induction E with
  | nil => exact Nat.zero_le N
  | cons e rest ih =>
    simp only [List.foldr_cons]
    exact max_le (h e (List.mem_cons_self e rest))
      (ih (fun b hb => h b (List.mem_cons_of_mem _ hb)))

lemma foldr_max_eq (E : List (ℕ × ℕ × ℝ)) (N : ℕ)
    (h1 : ∀ e ∈ E, e.1 + 1 ≤ N) (h2 : ∃ e ∈ E, e.1 + 1 = N) :
    E.foldr (fun e a => max (e.1 + 1) a) 0 = N := by
  apply le_antisymm (foldr_max_le E N h1)
  obtain ⟨e, hmem, heq⟩ := h2
  calc N = e.1 + 1 := heq.symm
    _ ≤ E.foldr (fun e a => max (e.1 + 1) a) 0 := by
      clear heq h1
      induction E with
      | nil => cases hmem
      | cons e' rest ih =>
        simp only [List.foldr_cons]
        rcases List.mem_cons.mp hmem with heq' | hmem'
        · subst heq'
          exact le_max_left _ _
        · exact le_trans (ih hmem') (le_max_right _ _)

lemma mem_covEntries_fst_lt {t : List (List ℝ)} {e : ℕ × ℕ × ℝ}
    (h : e ∈ covEntriesOf t) : e.1 < t.length := by
  obtain ⟨ir, hir, hmem⟩ := List.mem_flatMap.mp h
  obtain ⟨jv, _, hjv⟩ := List.mem_map.mp hmem
  cases hjv
  have : ir.1 ∈ t.enum.map Prod.fst := List.mem_map.mpr ⟨ir, hir, rfl⟩
  rw [List.enum_map_fst] at this
  exact List.mem_range.mp this

lemma mem_covEntries_of_rows {t : List (List ℝ)} {i : ℕ} (hi : i < t.length)
    (hne : t.getD i [] ≠ []) :
    ∃ e ∈ covEntriesOf t, e.1 = i := by
  set r := t.getD i [] with hr
  have hrl : 0 < r.length := List.length_pos.mpr hne
  have hget : t[i] = r := by
    rw [hr, List.getD_eq_getElem?_getD, List.getElem?_eq_getElem hi]
    rfl
  have henl : 0 < r.enum.length := by rwa [List.enum_length]
  have hienum : i < t.enum.length := by rwa [List.enum_length]
  refine ⟨(i, r.enum[0]), ?_, rfl⟩
  apply List.mem_flatMap.mpr
  refine ⟨(i, r), ?_, ?_⟩
  · have heq : t.enum[i] = (i, r) := by
      rw [List.getElem_enum, hget]
    rw [← heq]
    exact List.getElem_mem hienum
  · apply List.mem_map.mpr
    refine ⟨r.enum[0], List.getElem_mem henl, rfl⟩

lemma decodeCov_flattenParams (t : List (List ℝ))
    (univs : List (String × UnivDict)) (n : ℝ)
    (hnil : t ≠ []) (hrows : ∀ i, i < t.length → t.getD i [] ≠ []) :
    decodeCov (flattenParams t univs n) = .ok (some t) := by
  unfold decodeCov
  rw [covEntries_flattenParams]
  have hlenpos : 0 < t.length := List.length_pos.mpr hnil
  have hne_entries : covEntriesOf t ≠ [] := by
    obtain ⟨e, hmem, _⟩ :=
      mem_covEntries_of_rows hlenpos (hrows 0 hlenpos)
    exact List.ne_nil_of_mem hmem
  rw [if_neg (by simp [List.isEmpty_iff, hne_entries])]
  have hN : (covEntriesOf t).foldr (fun e a => max (e.1 + 1) a) 0
      = t.length := by
    apply foldr_max_eq
    · exact fun e he => mem_covEntries_fst_lt he
    · obtain ⟨e, hmem, heq⟩ := mem_covEntries_of_rows
        (Nat.sub_lt hlenpos Nat.one_pos) (hrows _ (Nat.sub_lt hlenpos Nat.one_pos))
      exact ⟨e, hmem, by omega⟩
  have hmapM : exceptMapM (decodeCovRow (covEntriesOf t)) (List.range t.length)
      = .ok ((List.range t.length).map (fun i => t.getD i [])) := by
    apply exceptMapM_ok_of_all
    intro i hi
    exact decodeCovRow_covEntries t (List.mem_range.mp hi)
      (hrows i (List.mem_range.mp hi))
  have hrange : (List.range t.length).map (fun i => t.getD i []) = t := by
    apply List.ext_getElem
    · simp
    · intro i h1 h2
      rw [List.getElem_map, List.getElem_range,
        List.getD_eq_getElem?_getD, List.getElem?_eq_getElem h2]
      rfl
  simp only [hN, hmapM, hrange, Except.bind, Bind.bind, Pure.pure, Except.pure]

/-- The column-tagged entries that the univariates block of `flattenParams`
contributes. -/
def univEntriesOf (univs : List (String × UnivDict)) :
    List (String × String × UnivVal) :=
  univs.flatMap (fun cu => (filteredDict cu.2).map (fun kv => (cu.1, kv)))

lemma univEntries_flattenParams (t : List (List ℝ))
    (univs : List (String × UnivDict)) (n : ℝ) :
    (flattenParams t univs n).filterMap (fun kv =>
      match kv.1 with
      | .univ c k => some (c, k, kv.2)
      | _ => none) = univEntriesOf univs := by
  unfold flattenParams
  rw [List.filterMap_append, List.filterMap_append]
  have hA : (t.enum.flatMap (fun ir =>
      ir.2.enum.map (fun jv =>
        ((FlatKey.cov ir.1 jv.1 : FlatKey), UnivVal.num jv.2)))).filterMap
        (fun kv =>
          match kv.1 with
          | FlatKey.univ c k => some (c, k, kv.2)
          | _ => none) = [] := by
    apply List.filterMap_eq_nil_iff.mpr
    intro kv hkv
    obtain ⟨ir, _, hmem⟩ := List.mem_flatMap.mp hkv
    obtain ⟨jv, _, hjv⟩ := List.mem_map.mp hmem
    cases hjv
    rfl
  have hC : ([(FlatKey.numRows, UnivVal.num n)] : FlatMap).filterMap (fun kv =>
      match kv.1 with
      | FlatKey.univ c k => some (c, k, kv.2)
      | _ => none) = [] := rfl
  rw [hA, hC, List.nil_append, List.append_nil]
  rw [filterMap_flatMap]
  unfold univEntriesOf
  have hfun : (fun (cu : String × UnivDict) =>
      (cu.2.filterMap (fun kv =>
        if kv.1 ∈ IGNORED_DICT_KEYS then none
        else some ((FlatKey.univ cu.1 kv.1 : FlatKey), kv.2))).filterMap
        (fun kv =>
          match kv.1 with
          | FlatKey.univ c k => some (c, k, kv.2)
          | _ => none))
      = fun (cu : String × UnivDict) =>
          (filteredDict cu.2).map (fun kv => (cu.1, kv)) := by
    funext cu
    rw [List.filterMap_filterMap, filteredDict, List.map_filterMap]
    apply List.filterMap_congr
    intro kv _
    by_cases hig : kv.1 ∈ IGNORED_DICT_KEYS
    · simp [hig]
    · simp [hig]
  rw [hfun]

lemma foldl_insert_known (c : String) :
    ∀ (block : List (String × UnivVal)) (acc : List (String × UnivDict))
      (d0 : UnivDict), (∀ cu ∈ acc, cu.1 ≠ c) →
    (block.map (fun kv => ((c, kv) : String × String × UnivVal))).foldl
        (fun a e => insertUniv a e.1 e.2.1 e.2.2) (acc ++ [(c, d0)])
      = acc ++ [(c, d0 ++ block)] := by
  intro block
  induction block with
  | nil =>
    intro acc d0 _
    simp
  | cons kv bs ih =>
    intro acc d0 h
    simp only [List.map_cons, List.foldl_cons]
    have hins : insertUniv (acc ++ [(c, d0)]) c kv.1 kv.2
        = acc ++ [(c, d0 ++ [kv])] := by
      unfold insertUniv
      rw [if_pos (by simp), List.map_append]
      congr 1
      · conv_rhs => rw [← List.map_id acc]
        apply List.map_congr_left
        intro cu hcu
        simp [h cu hcu]
      · simp
    rw [hins, ih acc (d0 ++ [kv]) h, List.append_assoc]
    rfl

lemma foldl_insert_fresh (c : String) (block : List (String × UnivVal))
    (hb : block ≠ []) (acc : List (String × UnivDict))
    (h : ∀ cu ∈ acc, cu.1 ≠ c) :
    (block.map (fun kv => ((c, kv) : String × String × UnivVal))).foldl
        (fun a e => insertUniv a e.1 e.2.1 e.2.2) acc
      = acc ++ [(c, block)] := by
  cases block with
  | nil => exact absurd rfl hb
  | cons kv bs =>
    simp only [List.map_cons, List.foldl_cons]
    have hins : insertUniv acc c kv.1 kv.2 = acc ++ [(c, [kv])] := by
      unfold insertUniv
      rw [if_neg ?_]
      intro hc
      obtain ⟨cu, hcu, hc'⟩ := List.any_eq_true.mp hc
      exact h cu hcu (by simpa using hc')
    rw [hins, foldl_insert_known c bs acc [kv] h]
    rfl

lemma foldl_insert_blocks :
    ∀ (univs : List (String × UnivDict)) (acc : List (String × UnivDict)),
    (univs.map Prod.fst).Nodup →
    (∀ cu ∈ univs, ∀ a ∈ acc, a.1 ≠ cu.1) →
    (∀ cu ∈ univs, filteredDict cu.2 ≠ []) →
    (univEntriesOf univs).foldl (fun a e => insertUniv a e.1 e.2.1 e.2.2) acc
      = acc ++ univs.map (fun cu => (cu.1, filteredDict cu.2)) := by
  intro univs
  induction univs with
  | nil =>
    intro acc _ _ _
    simp [univEntriesOf]
  | cons cu rest ih =>
    intro acc hnd hdisj hne
    rw [List.map_cons, List.nodup_cons] at hnd
    have hsplit : univEntriesOf (cu :: rest)
        = (filteredDict cu.2).map
            (fun kv => ((cu.1, kv) : String × String × UnivVal))
          ++ univEntriesOf rest := by
      unfold univEntriesOf
      rw [List.flatMap_cons]
    rw [hsplit, List.foldl_append]
    rw [foldl_insert_fresh cu.1 (filteredDict cu.2)
      (hne cu (List.mem_cons_self cu rest)) acc
      (fun a ha => hdisj cu (List.mem_cons_self cu rest) a ha)]
    have hdisj' : ∀ c' ∈ rest, ∀ a ∈ acc ++ [(cu.1, filteredDict cu.2)],
        a.1 ≠ c'.1 := by
      intro c' hc' a ha
      rcases List.mem_append.mp ha with ha' | ha'
      · exact hdisj c' (List.mem_cons_of_mem _ hc') a ha'
      · rw [List.mem_singleton] at ha'
        subst ha'
        intro hc
        exact hnd.1 (hc ▸ List.mem_map.mpr ⟨c', hc', rfl⟩)
    rw [ih _ hnd.2 hdisj' (fun c' hc' => hne c' (List.mem_cons_of_mem _ hc'))]
    rw [List.append_assoc]
    rfl

lemma decodeUnivs_flattenParams (t : List (List ℝ))
    (univs : List (String × UnivDict)) (n : ℝ)
    (hnd : (univs.map Prod.fst).Nodup)
    (hne : ∀ cu ∈ univs, filteredDict cu.2 ≠ [])
    (hnil : univs ≠ []) :
    decodeUnivs (flattenParams t univs n)
      = some (univs.map (fun cu => (cu.1, filteredDict cu.2))) := by
  unfold decodeUnivs
  rw [univEntries_flattenParams]
  have hne_entries : univEntriesOf univs ≠ [] := by
    cases hu : univs with
    | nil => exact absurd hu hnil
    | cons cu rest =>
      have hb := hne cu (by rw [hu]; exact List.mem_cons_self cu rest)
      cases hfb : filteredDict cu.2 with
      | nil => exact absurd hfb hb
      | cons kv bs =>
        unfold univEntriesOf
        rw [List.flatMap_cons, hfb]
        simp
  rw [if_neg (by simp [List.isEmpty_iff, hne_entries])]
  rw [foldl_insert_blocks univs [] hnd (by simp) hne]
  rfl

lemma findNumRows_flattenParams (t : List (List ℝ))
    (univs : List (String × UnivDict)) (n : ℝ) :
    findNumRows (flattenParams t univs n) = some (UnivVal.num n) := by
  unfold findNumRows flattenParams
  rw [List.find?_append, List.find?_append]
  have hA : (t.enum.flatMap (fun ir =>
      ir.2.enum.map (fun jv =>
        ((FlatKey.cov ir.1 jv.1 : FlatKey), UnivVal.num jv.2)))).find?
        (fun kv => kv.1 = FlatKey.numRows) = none := by
    apply List.find?_eq_none.mpr
    intro kv hkv
    obtain ⟨ir, _, hmem⟩ := List.mem_flatMap.mp hkv
    obtain ⟨jv, _, hjv⟩ := List.mem_map.mp hmem
    cases hjv
    simp
  have hB : (univs.flatMap (fun cu =>
      cu.2.filterMap (fun kv =>
        if kv.1 ∈ IGNORED_DICT_KEYS then none
        else some ((FlatKey.univ cu.1 kv.1 : FlatKey), kv.2)))).find?
        (fun kv => kv.1 = FlatKey.numRows) = none := by
    apply List.find?_eq_none.mpr
    intro kv hkv
    obtain ⟨cu, _, hmem⟩ := List.mem_flatMap.mp hkv
    obtain ⟨kv', _, hval⟩ := List.mem_filterMap.mp hmem
    by_cases hig : kv'.1 ∈ IGNORED_DICT_KEYS
    · rw [if_pos hig] at hval
      cases hval
    · rw [if_neg hig] at hval
      cases hval
      simp
  rw [hA, hB]
  rfl

/-- `unflatten_dict` inverts `flattenParams` on the structures
`get_parameters` produces. -/
lemma unflatten_flattenParams (t : List (List ℝ))
    (univs : List (String × UnivDict)) (n : ℝ)
    (htnil : t ≠ []) (hrows : ∀ i, i < t.length → t.getD i [] ≠ [])
    (hnd : (univs.map Prod.fst).Nodup)
    (hune : ∀ cu ∈ univs, filteredDict cu.2 ≠ [])
    (hunil : univs ≠ []) :
    unflatten_dict (flattenParams t univs n)
      = .ok { covariance := some t
              univariates :=
                some (univs.map (fun cu => (cu.1, filteredDict cu.2)))
              num_rows := some (UnivVal.num n) } := by
  unfold unflatten_dict
  rw [decodeCov_flattenParams t univs n htnil hrows,
    decodeUnivs_flattenParams t univs n hnd hune hunil,
    findNumRows_flattenParams]

lemma setKey_ne_nil {α : Type} (k : String) (v : α) {d : List (String × α)}
    (h : d ≠ []) : setKey k v d ≠ [] := by
  unfold setKey
  split
  · simpa using h
  · simp

lemma row_triRows (M : List (List ℝ)) (i : ℕ) :
    (triRows M).getD i [] = (M.getD i []).take (i + 1) := by
  unfold triRows
  rw [List.getD_eq_getElem?_getD, List.getElem?_map, List.getElem?_enum,
    List.getD_eq_getElem?_getD M]
  cases hr : M[i]? with
  | none => rfl
  | some r => rfl

lemma map_fst_map_pair {α β γ : Type} (l : List (α × β)) (h : α × β → γ) :
    (l.map (fun cu => (cu.1, h cu))).map (fun cu => cu.1)
      = l.map (fun cu => cu.1) := by
  rw [List.map_map]
  rfl

lemma filteredDict_logScale_ne_nil (u : UnivObj)
    (hig : ∀ kv ∈ u.params, kv.1 ∉ IGNORED_DICT_KEYS)
    (hne : u.params ≠ [])
    (hsc : lookupKey "scale" u.params = none
        ∨ ∃ s, lookupKey "scale" u.params = some (UnivVal.num s) ∧ 0 < s) :
    filteredDict (logScaleStep u.to_dict) ≠ [] := by
  have hlook_td : lookupKey "scale" u.to_dict = lookupKey "scale" u.params := by
    rw [UnivObj.to_dict, lookupKey_cons,
      if_neg (show ¬("type", UnivVal.dist u.fam).1 = "scale" by simp)]
  rcases hsc with hnone | ⟨s, hs, hspos⟩
  · rw [logScaleStep, hlook_td, hnone, UnivObj.to_dict,
      filteredDict_cons_ignored _ (by simp [IGNORED_DICT_KEYS]),
      filteredDict_of_no_ignored hig]
    exact hne
  · have hany_scale : u.params.any (fun kv => kv.1 = "scale") = true := by
      rw [← lookupKey_isSome_eq_any, hs]
      rfl
    have hlog : logScaleStep u.to_dict
        = ("type", UnivVal.dist u.fam)
            :: setKey "scale" (logVal (UnivVal.num s)) u.params := by
      rw [logScaleStep, hlook_td, hs]
      show setKey "scale" (logVal (UnivVal.num s)) u.to_dict = _
      rw [UnivObj.to_dict,
        setKey_cons_ne (show ("type", UnivVal.dist u.fam).1 ≠ "scale" by simp)]
    have hkeys : (setKey "scale" (logVal (UnivVal.num s)) u.params).map
        Prod.fst = u.params.map Prod.fst := keys_setKey_of_any hany_scale _
    have hig' : ∀ kv ∈ setKey "scale" (logVal (UnivVal.num s)) u.params,
        kv.1 ∉ IGNORED_DICT_KEYS := by
      intro kv hkv
      have : kv.1 ∈ u.params.map Prod.fst := mem_keys_setKey hany_scale hkv
      obtain ⟨kv', hkv', hk⟩ := List.mem_map.mp this
      exact hk ▸ hig kv' hkv'
    rw [hlog, filteredDict_cons_ignored _ (by simp [IGNORED_DICT_KEYS]),
      filteredDict_of_no_ignored hig']
    exact setKey_ne_nil _ _ hne

/-- C1: on a fitted model whose families are all parametric (well-formed
numeric parameter dicts with positive scales, distinct column names, a
square symmetric covariance matrix that passes the positive-definiteness
check, and a field-distribution entry for every column), feeding the flat
mapping returned by `get_parameters` back into `set_parameters` succeeds
and reproduces a model whose covariance matrix, columns and per-column
univariate parameters equal the original's exactly. -/
theorem C1_round_trip (st : GCState) (m : GaussMult)
    (hmodel : st.model = some m)
    (hcols : m.columns.Nodup)
    (hlen : m.univariates.length = m.columns.length)
    (hcovlen : m.covariance.length = m.columns.length)
    (hcheck : check_matrix_symmetric_positive_definite m.covariance)
    (hsym : ∀ i j, matGet m.covariance i j = matGet m.covariance j i)
    (hpar : ∀ u ∈ m.univariates,
      u.fam.parametricType = ParametricType.parametric)
    (hwf : ∀ u ∈ m.univariates,
      (u.params.map Prod.fst).Nodup ∧ u.params ≠ []
      ∧ (∀ kv ∈ u.params, kv.1 ∉ IGNORED_DICT_KEYS)
      ∧ (lookupKey "scale" u.params = none
         ∨ ∃ s, lookupKey "scale" u.params = some (UnivVal.num s) ∧ 0 < s))
    (hfd : ∀ c ∈ m.columns,
      (lookupKey c st.field_distributions).isSome = true) :
    ∃ fp st' m', get_parameters st = .ok fp
      ∧ set_parameters st fp = (st', none)
      ∧ st'.model = some m'
      ∧ m'.covariance = m.covariance
      ∧ m'.columns = m.columns
      ∧ m'.univariates.map (fun u => u.params)
          = m.univariates.map (fun u => u.params) := by
  -- notation for the intermediate structures
  set t := triRows m.covariance with ht
  set univsEnc := (m.columns.zip m.univariates).map
      (fun cu => (cu.1, logScaleStep cu.2.to_dict)) with hUE
  -- `get_parameters` succeeds
  have hb : (m.univariates.any fun u =>
      decide (u.fam.parametricType = ParametricType.nonParametric)) = false := by
    apply List.any_eq_false.mpr
    intro u hu
    rw [hpar u hu]
    simp
  have hok : get_parameters st
      = .ok (flattenParams t univsEnc (st.num_rows : ℝ)) := by
    simp only [get_parameters, hmodel, hb]
    rfl
  -- shape facts about the triangular rows
  have hcovnil : m.covariance ≠ [] := hcheck.1.1
  have hsquare : ∀ r ∈ m.covariance, r.length = m.covariance.length :=
    hcheck.1.2
  have htnil : t ≠ [] := by
    rw [ht]
    intro hc
    have := length_triRows m.covariance
    rw [hc] at this
    exact hcovnil (List.length_eq_zero.mp this.symm)
  have htrows : ∀ i, i < t.length → t.getD i [] ≠ [] := by
    intro i hi
    rw [ht, length_triRows] at hi
    rw [ht, row_triRows]
    have hrowlen : (m.covariance.getD i []).length = m.covariance.length := by
      rw [List.getD_eq_getElem?_getD, List.getElem?_eq_getElem hi]
      exact hsquare _ (List.getElem_mem hi)
    intro hc
    have := congrArg List.length hc
    rw [List.length_take, hrowlen] at this
    simp only [List.length_nil] at this
    omega
  -- facts about the encoded univariates
  have hUEfst : univsEnc.map Prod.fst = m.columns := by
    rw [hUE, List.map_map]
    exact List.map_fst_zip m.columns m.univariates (by omega)
  have hUEnodup : (univsEnc.map Prod.fst).Nodup := by rw [hUEfst]; exact hcols
  have hUEmem : ∀ cu ∈ univsEnc, cu.1 ∈ m.columns ∧ ∃ u ∈ m.univariates,
      cu = (cu.1, logScaleStep u.to_dict) := by
    intro cu hcu
    rw [hUE] at hcu
    obtain ⟨p, hp, hcu'⟩ := List.mem_map.mp hcu
    obtain ⟨hp1, hp2⟩ := List.of_mem_zip hp
    subst hcu'
    exact ⟨hp1, p.2, hp2, rfl⟩
  have hune : ∀ cu ∈ univsEnc, filteredDict cu.2 ≠ [] := by
    intro cu hcu
    obtain ⟨-, u, hu, hcu'⟩ := hUEmem cu hcu
    obtain ⟨-, hne, hig, hsc⟩ := hwf u hu
    rw [hcu']
    exact filteredDict_logScale_ne_nil u hig hne hsc
  have hunil : univsEnc ≠ [] := by
    rw [hUE]
    intro hc
    have h1 := congrArg List.length hc
    rw [List.length_map, List.length_zip, List.length_nil] at h1
    have h2 : 0 < m.columns.length := by
      rw [← hcovlen]
      exact List.length_pos.mpr hcovnil
    omega
  -- decode
  have hdec : unflatten_dict (flattenParams t univsEnc (st.num_rows : ℝ))
      = .ok { covariance := some t
              univariates :=
                some (univsEnc.map (fun cu => (cu.1, filteredDict cu.2)))
              num_rows := some (UnivVal.num (st.num_rows : ℝ)) } :=
    unflatten_flattenParams t univsEnc _ htnil htrows hUEnodup hune hunil
  -- rebuild the univariates
  set univsDec := univsEnc.map (fun cu => (cu.1, filteredDict cu.2)) with hUD
  have hUDmem : ∀ cu ∈ univsDec, cu.1 ∈ m.columns := by
    intro cu hcu
    rw [hUD] at hcu
    obtain ⟨cu', hcu', heq⟩ := List.mem_map.mp hcu
    subst heq
    exact (hUEmem cu' hcu').1
  have hmapM : exceptMapM (fun cu =>
      match lookupKey cu.1 st.field_distributions with
      | none => Except.error (Err.keyError cu.1)
      | some ty =>
        Except.ok (cu.1, expScaleStep (setKey "type" (.dist ty) cu.2)))
      univsDec
      = .ok (univsDec.map (fun cu =>
          (cu.1, expScaleStep (setKey "type"
            (UnivVal.dist ((lookupKey cu.1 st.field_distributions).getD
              _DEFAULT_DISTRIBUTION)) cu.2)))) := by
    apply exceptMapM_ok_of_all
    intro cu hcu
    obtain ⟨ty, hty⟩ := Option.isSome_iff_exists.mp
      (hfd cu.1 (hUDmem cu hcu))
    rw [hty]
    simp [hty]
  have hcov : _rebuild_covariance_matrix t = m.covariance := by
    have hsq' : symmetrizeMatrix (square_matrix t) = m.covariance := by
      rw [ht]
      exact symmetrize_square_triRows m.covariance hsquare hsym
    rw [_rebuild_covariance_matrix, hsq', if_pos hcheck]
  have hreb : _rebuild_gaussian_copula st.field_distributions
      { covariance := some t
        univariates := some univsDec
        num_rows := some (UnivVal.num (st.num_rows : ℝ)) }
      = .ok { columns := (univsDec.map (fun cu =>
                (cu.1, expScaleStep (setKey "type"
                  (UnivVal.dist ((lookupKey cu.1 st.field_distributions).getD
                    _DEFAULT_DISTRIBUTION)) cu.2)))).map (fun cu => cu.1)
              univariates := univsDec.map (fun cu =>
                (cu.1, expScaleStep (setKey "type"
                  (UnivVal.dist ((lookupKey cu.1 st.field_distributions).getD
                    _DEFAULT_DISTRIBUTION)) cu.2)))
              covariance := m.covariance
              num_rows := some (UnivVal.num (st.num_rows : ℝ)) } := by
    simp only [_rebuild_gaussian_copula, hmapM, hcov]
  -- execute `set_parameters`
  refine ⟨flattenParams t univsEnc (st.num_rows : ℝ),
    { st with num_rows := (max 0 (pyRound (st.num_rows : ℝ))).toNat
              model := some (GaussianMultivariate.from_dict
                { columns := (univsDec.map (fun cu =>
                    (cu.1, expScaleStep (setKey "type"
                      (UnivVal.dist ((lookupKey cu.1 st.field_distributions).getD
                        _DEFAULT_DISTRIBUTION)) cu.2)))).map (fun cu => cu.1)
                  univariates := univsDec.map (fun cu =>
                    (cu.1, expScaleStep (setKey "type"
                      (UnivVal.dist ((lookupKey cu.1 st.field_distributions).getD
                        _DEFAULT_DISTRIBUTION)) cu.2)))
                  covariance := m.covariance
                  num_rows := some (UnivVal.num (st.num_rows : ℝ)) }) },
    GaussianMultivariate.from_dict
      { columns := (univsDec.map (fun cu =>
          (cu.1, expScaleStep (setKey "type"
            (UnivVal.dist ((lookupKey cu.1 st.field_distributions).getD
              _DEFAULT_DISTRIBUTION)) cu.2)))).map (fun cu => cu.1)
        univariates := univsDec.map (fun cu =>
          (cu.1, expScaleStep (setKey "type"
            (UnivVal.dist ((lookupKey cu.1 st.field_distributions).getD
              _DEFAULT_DISTRIBUTION)) cu.2)))
        covariance := m.covariance
        num_rows := some (UnivVal.num (st.num_rows : ℝ)) },
    hok, ?_, rfl, rfl, ?_, ?_⟩
  · simp only [set_parameters, hdec, hUD, hreb]
  · -- columns
    simp only [GaussianMultivariate.from_dict]
    rw [map_fst_map_pair, hUD, map_fst_map_pair, hUE, map_fst_map_pair]
    exact List.map_fst_zip m.columns m.univariates (by omega)
  · -- univariate parameters
    simp only [GaussianMultivariate.from_dict]
    have hRHS : (m.columns.zip m.univariates).map (fun cu => cu.2.params)
        = m.univariates.map (fun u => u.params) := by
      conv_rhs => rw [← List.map_snd_zip m.columns m.univariates (by omega)]
      rw [List.map_map]
      rfl
    rw [List.map_map, List.map_map, ← hRHS, hUD, hUE, List.map_map,
      List.map_map]
    apply List.map_congr_left
    intro cu hcu
    obtain ⟨hc1, hc2⟩ := List.of_mem_zip hcu
    obtain ⟨hnd, hne, hig, hsc⟩ := hwf cu.2 hc2
    show removeKey "type" (expScaleStep (setKey "type"
        (UnivVal.dist ((lookupKey cu.1 st.field_distributions).getD
          _DEFAULT_DISTRIBUTION))
        (filteredDict (logScaleStep cu.2.to_dict))))
      = cu.2.params
    rw [roundTripUniv cu.2 _ hnd hig hsc, removeKey_append,
      removeKey_of_forall_ne (fun kv hkv hc =>
        hig kv hkv (by rw [hc]; simp [IGNORED_DICT_KEYS])),
      show removeKey "type"
        [("type", UnivVal.dist ((lookupKey cu.1 st.field_distributions).getD
          _DEFAULT_DISTRIBUTION))] = [] from rfl,
      List.append_nil]

/-- A concrete one-column fitted model (gaussian marginal with `loc = 0`,
`scale = 1`, covariance `[[1]]`). -/
def witnessModel : GaussMult :=
  { columns := ["a"]
    univariates := [{ fam := DistSpec.inst DistObj.gaussian
                      params := [("loc", UnivVal.num (0:ℝ)),
                                 ("scale", UnivVal.num (1:ℝ))] }]
    covariance := [[(1:ℝ)]] }

/-- A concrete instance state holding `witnessModel`. -/
def witnessState : GCState :=
  { field_distributions := [("a", DistSpec.inst DistObj.gaussian)]
    default_distribution := _DEFAULT_DISTRIBUTION
    categorical_transformer := "one_hot_encoding"
    num_rows := 3
    model := some witnessModel }

lemma toMatrix_one_posDef :
    (toMatrix ([[(1:ℝ)]].length) [[(1:ℝ)]]).PosDef := by
  have h1 : toMatrix ([[(1:ℝ)]].length) [[(1:ℝ)]]
      = (1 : Matrix (Fin 1) (Fin 1) ℝ) := by
    ext i j
    fin_cases i
    fin_cases j
    simp [toMatrix, matGet, Matrix.one_apply]
  rw [h1]
  exact Matrix.PosDef.one

/-- C1 witness: the round trip on `witnessState` / `witnessModel`. -/
theorem C1_round_trip_witness :
    (witnessState.model = some witnessModel
      ∧ witnessModel.columns.Nodup
      ∧ witnessModel.univariates.length = witnessModel.columns.length
      ∧ witnessModel.covariance.length = witnessModel.columns.length
      ∧ check_matrix_symmetric_positive_definite witnessModel.covariance
      ∧ (∀ i j, matGet witnessModel.covariance i j
          = matGet witnessModel.covariance j i)
      ∧ (∀ u ∈ witnessModel.univariates,
          u.fam.parametricType = ParametricType.parametric)
      ∧ (∀ u ∈ witnessModel.univariates,
          (u.params.map Prod.fst).Nodup ∧ u.params ≠ []
          ∧ (∀ kv ∈ u.params, kv.1 ∉ IGNORED_DICT_KEYS)
          ∧ (lookupKey "scale" u.params = none
             ∨ ∃ s, lookupKey "scale" u.params = some (UnivVal.num s) ∧ 0 < s))
      ∧ (∀ c ∈ witnessModel.columns,
          (lookupKey c witnessState.field_distributions).isSome = true))
    ∧ (∃ fp st' m', get_parameters witnessState = .ok fp
      ∧ set_parameters witnessState fp = (st', none)
      ∧ st'.model = some m'
      ∧ m'.covariance = witnessModel.covariance
      ∧ m'.columns = witnessModel.columns
      ∧ m'.univariates.map (fun u => u.params)
          = witnessModel.univariates.map (fun u => u.params)) := by
  have h1 : witnessState.model = some witnessModel := rfl
  have h2 : witnessModel.columns.Nodup := by simp [witnessModel]
  have h3 : witnessModel.univariates.length = witnessModel.columns.length := rfl
  have h4 : witnessModel.covariance.length = witnessModel.columns.length := rfl
  have h5 : check_matrix_symmetric_positive_definite witnessModel.covariance :=
    ⟨⟨by simp [witnessModel], by simp [witnessModel]⟩, toMatrix_one_posDef⟩
  have h6 : ∀ i j, matGet witnessModel.covariance i j
      = matGet witnessModel.covariance j i := by
    intro i j
    cases i <;> cases j <;> simp [witnessModel, matGet, List.getD]
  have h7 : ∀ u ∈ witnessModel.univariates,
      u.fam.parametricType = ParametricType.parametric := by
    intro u hu
    rw [show witnessModel.univariates
        = [{ fam := DistSpec.inst DistObj.gaussian
             params := [("loc", UnivVal.num (0:ℝ)),
                        ("scale", UnivVal.num (1:ℝ))] }] from rfl,
      List.mem_singleton] at hu
    subst hu
    rfl
  have h8 : ∀ u ∈ witnessModel.univariates,
      (u.params.map Prod.fst).Nodup ∧ u.params ≠ []
      ∧ (∀ kv ∈ u.params, kv.1 ∉ IGNORED_DICT_KEYS)
      ∧ (lookupKey "scale" u.params = none
         ∨ ∃ s, lookupKey "scale" u.params = some (UnivVal.num s) ∧ 0 < s) := by
    intro u hu
    rw [show witnessModel.univariates
        = [{ fam := DistSpec.inst DistObj.gaussian
             params := [("loc", UnivVal.num (0:ℝ)),
                        ("scale", UnivVal.num (1:ℝ))] }] from rfl,
      List.mem_singleton] at hu
    subst hu
    refine ⟨by simp, by simp, ?_, Or.inr ⟨1, rfl, one_pos⟩⟩
    intro kv hkv
    rcases List.mem_cons.mp hkv with h | h
    · subst h
      decide
    · rw [List.mem_singleton] at h
      subst h
      decide
  have h9 : ∀ c ∈ witnessModel.columns,
      (lookupKey c witnessState.field_distributions).isSome = true := by
    intro c hc
    rw [show witnessModel.columns = ["a"] from rfl, List.mem_singleton] at hc
    subst hc
    rfl
  exact ⟨⟨h1, h2, h3, h4, h5, h6, h7, h8, h9⟩,
    C1_round_trip witnessState witnessModel h1 h2 h3 h4 h5 h6 h7 h8 h9⟩

end SDV
